import Mathlib

/-!
# Indirect-branch resolver: classifier backend and tracking plugin

A shallow embedding of `backend_demo.c` (the architecture-specific instruction
classifier) and `plugin_bak.cpp` (the block planner, the pending-branch
callbacks and the address resolver), followed by the properties proved of them.

Conventions of the embedding:
* machine integers are `Nat`; a `uint8_t` read is taken `% 256`, `uint32_t`
  arithmetic `% 2^32`, `uint64_t` arithmetic `% 2^64`;
* the static variable `arch` of the backend and the globals `branch_addr`,
  `outfile` and `cout` of the plugin are passed explicitly;
* functions that live outside the two files (`is_indirect_branch_default_impl`,
  `qemu_plugin_guest_base`, libc `sscanf`, the contents of `/proc/self/maps`)
  are parameters.
-/

namespace IBResolver

/-! ## backend_demo.c -/

/-- The enum `arch_t`. -/
inductive arch_t where
  | arm
  | x86_64
  | mips
  | mipsel
  deriving DecidableEq, Repr

/-- The read `insn_data[i]` of a `uint8_t`; the window is the list of bytes
behind the pointer. -/
def insn_byte (insn_data : List Nat) (i : Nat) : Nat :=
  insn_data.getD i 0 % 256

/-- The function `is_indirect_branch` of `backend_demo.c`.  `fallback` is
`is_indirect_branch_default_impl` (declared in `builtin_backend.h`), `arch` the
static variable `arch`.  Every `return true` of the source is a `true` leaf
here, and every path that falls out of the `if` chain ends in the fallback
call of the last line.  In the x86-64 branch an `if (insn_size == n)` with an
inner `if` and no `else` is the conjunction of the two tests.  The `printf`
notices are not part of the result. -/
def is_indirect_branch (fallback : List Nat → Nat → Bool) (arch : arch_t)
    (insn_data : List Nat) (insn_size : Nat) : Bool :=
  match arch with
  | .arm =>
    let blx_variable_bits : Nat := 0xf000000f
    let blx_constant_bits : Nat := 0x012fff30
    let blx : Nat := blx_constant_bits ||| blx_variable_bits
    if insn_size = 4 then
      let b0 := insn_byte insn_data 0
      let b1 := insn_byte insn_data 1
      let b2 := insn_byte insn_data 2
      let b3 := insn_byte insn_data 3
      let word := (b0 ||| (b1 <<< 8) % 2 ^ 32 ||| (b2 <<< 16) % 2 ^ 32 ||| (b3 <<< 24) % 2 ^ 32) % 2 ^ 32
      let word := word ||| blx_variable_bits
      if word = blx then true
      else fallback insn_data insn_size
    else fallback insn_data insn_size
  | .x86_64 =>
    if insn_size = 2 ∧
        (insn_byte insn_data 0 = 0xff ∧ 0xd0 ≤ insn_byte insn_data 1 ∧ insn_byte insn_data 1 ≤ 0xd6) then
      true
    else if insn_size = 3 ∧
        (insn_byte insn_data 0 = 0x41 ∧ insn_byte insn_data 1 = 0xff ∧
          0xd0 ≤ insn_byte insn_data 2 ∧ insn_byte insn_data 2 ≤ 0xd6) then
      true
    else fallback insn_data insn_size
  | .mipsel =>
    if insn_size = 4 then
      let instruction := ((insn_byte insn_data 0 <<< 24) ||| (insn_byte insn_data 1 <<< 16) |||
        (insn_byte insn_data 2 <<< 8) ||| insn_byte insn_data 3) % 2 ^ 32
      if instruction = 0x0320f809 then true
      else if instruction = 0x03020008 then true
      else fallback insn_data insn_size
    else fallback insn_data insn_size
  | .mips =>
    if insn_size = 4 then
      let instruction := ((insn_byte insn_data 0 <<< 24) ||| (insn_byte insn_data 1 <<< 16) |||
        (insn_byte insn_data 2 <<< 8) ||| insn_byte insn_data 3) % 2 ^ 32
      if instruction = 0x09f82003 then true
      else if instruction = 0x08002003 then true
      else fallback insn_data insn_size
    else fallback insn_data insn_size

/-- A fallback classifier that rejects every window. -/
def reject_all : List Nat → Nat → Bool := fun _ _ => false

/-! ### The rules of section 4.1, written from the specification -/

/-- The little-endian 32-bit word of the first four bytes of a window. -/
def le_word (insn_data : List Nat) : Nat :=
  insn_byte insn_data 0 ||| insn_byte insn_data 1 <<< 8 ||| insn_byte insn_data 2 <<< 16 |||
    insn_byte insn_data 3 <<< 24

/-- The big-endian 32-bit word of the first four bytes of a window. -/
def be_word (insn_data : List Nat) : Nat :=
  insn_byte insn_data 0 <<< 24 ||| insn_byte insn_data 1 <<< 16 ||| insn_byte insn_data 2 <<< 8 |||
    insn_byte insn_data 3

/-- The architecture's own rule as section 4.1 words it: the positive matches
of each instruction set, without the fallback. -/
def arch_rule (arch : arch_t) (insn_data : List Nat) (insn_size : Nat) : Bool :=
  match arch with
  | .arm =>
    decide (insn_size = 4 ∧ le_word insn_data ||| 0xf000000f = 0x012fff30 ||| 0xf000000f)
  | .x86_64 =>
    decide ((insn_size = 2 ∧ insn_byte insn_data 0 = 0xff ∧
        0xd0 ≤ insn_byte insn_data 1 ∧ insn_byte insn_data 1 ≤ 0xd6) ∨
      (insn_size = 3 ∧ insn_byte insn_data 0 = 0x41 ∧ insn_byte insn_data 1 = 0xff ∧
        0xd0 ≤ insn_byte insn_data 2 ∧ insn_byte insn_data 2 ≤ 0xd6))
  | .mips =>
    decide (insn_size = 4 ∧ (be_word insn_data = 0x08002003 ∨ be_word insn_data = 0x09f82003))
  | .mipsel =>
    decide (insn_size = 4 ∧ (be_word insn_data = 0x03020008 ∨ be_word insn_data = 0x0320f809))

/-! ## plugin_bak.cpp: the address resolver -/

/-- The struct `image_offset`: an offset into a loaded ELF file and the
position of the image name in the maps entry it was found in. -/
structure image_offset where
  offset : Nat
  image_name_pos : Nat
  deriving DecidableEq, Repr

/-- The four variables the `sscanf` call of `guest_vaddr_to_offset` stores:
`start`, `end`, `file_load_offset` (the three `%lx` conversions that are kept)
and `name_pos` (the `%n` conversion). -/
structure maps_fields where
  start : Nat
  end_ : Nat
  file_load_offset : Nat
  name_pos : Nat
  deriving DecidableEq, Repr

/-- What the plugin reads from its host and does not compute itself:
`guest_base` is the value of `qemu_plugin_guest_base()`, `sscanf_maps` the
libc call `sscanf(line, "%lx-%lx %*c%*c%*c%*c %lx %*lx:%*lx %*lu %n", ...)` as
a function of the line, `maps` the lines `getline` reads from
`/proc/self/maps`, and the two `unset` values are what `->offset` reads from an
`optional` that holds no value. -/
structure host_env where
  guest_base : Nat
  sscanf_maps : String → maps_fields
  maps : List String
  unset_callsite_offset : Nat
  unset_dst_offset : Nat

/-- The function `guest_vaddr_to_offset`.  The sum that gives `host_vaddr` and
the sum that gives `file_offset` are `uint64_t` additions; the subtraction is
only reached when `start <= host_vaddr`, so it does not wrap. -/
def guest_vaddr_to_offset (env : host_env) (maps_entry : String) (guest_vaddr : Nat) :
    Option image_offset :=
  let host_vaddr := (guest_vaddr + env.guest_base) % 2 ^ 64
  let f := env.sscanf_maps maps_entry
  if f.start ≤ host_vaddr ∧ host_vaddr ≤ f.end_ then
    let segment_offset := host_vaddr - f.start
    let file_offset := (segment_offset + f.file_load_offset) % 2 ^ 64
    some { offset := file_offset, image_name_pos := f.name_pos }
  else
    none

/-- The expression `string(line.data() + pos)`: the text of the line from
position `pos` on.  A line is the C string `getline` produced, so it holds no
NUL and positions count its characters. -/
def image_name_at (line : String) (pos : Nat) : String :=
  ⟨line.data.drop pos⟩

/-- The four locals of `mark_indirect_branch` that the `while` loop updates. -/
structure mark_locals where
  callsite : Option image_offset
  dst : Option image_offset
  callsite_image : String
  dst_image : String
  deriving DecidableEq, Repr

/-- The body of the `while (getline(maps, line))` loop, up to the `break`
test. -/
def mark_loop_body (env : host_env) (callsite_vaddr dst_vaddr : Nat) (line : String)
    (l : mark_locals) : mark_locals :=
  let l :=
    if l.callsite.isNone then
      match guest_vaddr_to_offset env line callsite_vaddr with
      | some o => { l with callsite := some o, callsite_image := image_name_at line o.image_name_pos }
      | none => { l with callsite := none }
    else l
  let l :=
    if l.dst.isNone then
      match guest_vaddr_to_offset env line dst_vaddr with
      | some o => { l with dst := some o, dst_image := image_name_at line o.image_name_pos }
      | none => { l with dst := none }
    else l
  l

/-- The `while` loop of `mark_indirect_branch` over the remaining lines, with
its `break` once both sides hold a value. -/
def mark_loop (env : host_env) (callsite_vaddr dst_vaddr : Nat) :
    List String → mark_locals → mark_locals
  | [], l => l
  | line :: rest, l =>
    let l := mark_loop_body env callsite_vaddr dst_vaddr line l
    if l.callsite.isSome ∧ l.dst.isSome then l
    else mark_loop env callsite_vaddr dst_vaddr rest l

/-- The locals of `mark_indirect_branch` when the loop is left. -/
def mark_resolve (env : host_env) (callsite_vaddr dst_vaddr : Nat) : mark_locals :=
  mark_loop env callsite_vaddr dst_vaddr env.maps
    { callsite := none, dst := none, callsite_image := "", dst_image := "" }

/-- A maps line contains the guest address `v`: its parsed range, both ends
included, holds the host address `(v + guest_base) mod 2^64`. -/
def line_contains (env : host_env) (line : String) (v : Nat) : Prop :=
  (env.sscanf_maps line).start ≤ (v + env.guest_base) % 2 ^ 64 ∧
    (v + env.guest_base) % 2 ^ 64 ≤ (env.sscanf_maps line).end_

instance (env : host_env) (line : String) (v : Nat) : Decidable (line_contains env line v) :=
  inferInstanceAs (Decidable (_ ∧ _))

/-- One side of the loop taken alone: the first line, in map order, in which
the address resolves, with the offset and the image name taken from it. -/
def side_resolve (env : host_env) (vaddr : Nat) : List String → Option (image_offset × String)
  | [] => none
  | line :: rest =>
    match guest_vaddr_to_offset env line vaddr with
    | some o => some (o, image_name_at line o.image_name_pos)
    | none => side_resolve env vaddr rest

/-- How a side that already holds `cur` and `cur_image` ends up when the
remaining lines resolve it to `res`. -/
def side_outcome (cur : Option image_offset) (cur_image : String)
    (res : Option (image_offset × String)) : Option image_offset × String :=
  match cur with
  | some o => (some o, cur_image)
  | none =>
    match res with
    | some (o, name) => (some o, name)
    | none => (none, cur_image)

/-- The streams the plugin writes: every entry is the text written up to one
`endl`. -/
structure io_state where
  outfile : List String
  cout : List String
  deriving DecidableEq, Repr

/-- The manipulator `hex` applied to a `uint64_t`: lowercase digits, no
padding. -/
def hex (n : Nat) : String :=
  ⟨Nat.toDigits 16 n⟩

/-- The function `mark_indirect_branch`: resolve both sides, report the ones
that were not found on `cout`, and append the record to `outfile`. -/
def mark_indirect_branch (env : host_env) (callsite_vaddr dst_vaddr : Nat) (io : io_state) :
    io_state :=
  let l := mark_resolve env callsite_vaddr dst_vaddr
  let io :=
    if l.callsite.isNone then
      { io with cout := io.cout ++ ["ERROR: Unable to find callsite address in /proc/self/maps"] }
    else io
  let io :=
    if l.dst.isNone then
      { io with cout := io.cout ++ ["ERROR: Unable to find destination address in /proc/self/maps"] }
    else io
  let callsite_offset :=
    match l.callsite with
    | some o => o.offset
    | none => env.unset_callsite_offset
  let dst_offset :=
    match l.dst with
    | some o => o.offset
    | none => env.unset_dst_offset
  { io with outfile := io.outfile ++
      ["0x" ++ hex callsite_offset ++ "," ++ "0x" ++ hex dst_offset ++ "," ++
        "0x" ++ hex callsite_vaddr ++ "," ++ "0x" ++ hex dst_vaddr ++ "," ++
        l.callsite_image ++ "," ++ l.dst_image] }

/-! ## plugin_bak.cpp: the pending-branch callbacks -/

/-- The globals the callbacks touch: `branch_addr` and the two streams. -/
structure plugin_state where
  branch_addr : Option Nat
  io : io_state
  deriving DecidableEq, Repr

/-- The callback `branch_taken` (its `vcpu_idx` argument is unused). -/
def branch_taken (env : host_env) (dst_vaddr : Nat) (s : plugin_state) : plugin_state :=
  match s.branch_addr with
  | some callsite => { branch_addr := none, io := mark_indirect_branch env callsite dst_vaddr s.io }
  | none => s

/-- The callback `branch_skipped`. -/
def branch_skipped (_userdata : Nat) (s : plugin_state) : plugin_state :=
  { s with branch_addr := none }

/-- The callback `indirect_branch_exec`. -/
def indirect_branch_exec (callsite_addr : Nat) (s : plugin_state) : plugin_state :=
  { s with branch_addr := some callsite_addr }

/-- The callback `indirect_branch_at_start`. -/
def indirect_branch_at_start (env : host_env) (callsite_addr : Nat) (s : plugin_state) :
    plugin_state :=
  indirect_branch_exec callsite_addr (branch_taken env callsite_addr s)

/-! ## plugin_bak.cpp: the block planner -/

/-- The four functions that `block_trans_handler` registers. -/
inductive cb_fn where
  | branch_taken
  | branch_skipped
  | indirect_branch_exec
  | indirect_branch_at_start
  deriving DecidableEq, Repr

/-- One call of `qemu_plugin_register_vcpu_insn_exec_cb`: the function and the
`userdata` pointer (`NULL` is 0). -/
structure insn_cb where
  cb : cb_fn
  userdata : Nat
  deriving DecidableEq, Repr

/-- What the planner reads of one `qemu_plugin_insn`: `qemu_plugin_insn_vaddr`
and `qemu_plugin_insn_data`; `qemu_plugin_insn_size` is the length of the
data. -/
structure qemu_plugin_insn where
  vaddr : Nat
  data : List Nat
  deriving DecidableEq, Repr

/-- What the planner reads of one `qemu_plugin_tb`: `qemu_plugin_tb_vaddr` and
the instructions (`qemu_plugin_tb_n_insns` is their number). -/
structure qemu_plugin_tb where
  vaddr : Nat
  insns : List qemu_plugin_insn
  deriving DecidableEq, Repr

/-- The call `qemu_plugin_tb_get_insn(tb, i)`. -/
def qemu_plugin_tb_get_insn (tb : qemu_plugin_tb) (i : Nat) : qemu_plugin_insn :=
  tb.insns.getD i { vaddr := 0, data := [] }

/-- What one run of `block_trans_handler` produces: the registrations, each
with the index of the instruction it was made on, in the order they were made,
and the lines written to `cout`. -/
structure trans_state where
  cbs : List (Nat × insn_cb)
  cout : List String
  deriving DecidableEq, Repr

/-- The call `qemu_plugin_register_vcpu_insn_exec_cb` on instruction `i`. -/
def register_cb (st : trans_state) (i : Nat) (cb : cb_fn) (userdata : Nat) : trans_state :=
  { st with cbs := st.cbs ++ [(i, { cb := cb, userdata := userdata })] }

/-- The line the planner writes to `cout` on two adjacent indirect branches. -/
def consecutive_warning : String :=
  "WARNING: Consecutive indirect branches are currently not handled properly"

/-- The body of the `for` loop of `block_trans_handler` for index `i`.  The
classifier is the function pointer `is_indirect_branch` of the plugin. -/
def block_trans_step (is_indirect_branch : List Nat → Nat → Bool) (tb : qemu_plugin_tb)
    (i : Nat) (st : trans_state) : trans_state :=
  let start_vaddr := tb.vaddr
  let num_insns := tb.insns.length
  let insn := qemu_plugin_tb_get_insn tb i
  let insn_addr := insn.vaddr
  let insn_data := insn.data
  let insn_size := insn.data.length
  let insn_is_branch := is_indirect_branch insn_data insn_size
  if i = 0 then
    if !insn_is_branch then
      register_cb st i .branch_taken start_vaddr
    else
      let st := register_cb st i .indirect_branch_at_start start_vaddr
      if num_insns > 1 then
        register_cb st 1 .branch_skipped 0
      else st
  else
    if insn_is_branch then
      let st := register_cb st i .indirect_branch_exec insn_addr
      if i + 1 < num_insns then
        let next_insn := qemu_plugin_tb_get_insn tb (i + 1)
        let next_data := next_insn.data
        let next_size := next_insn.data.length
        let st :=
          if is_indirect_branch next_data next_size then
            { st with cout := st.cout ++ [consecutive_warning] }
          else st
        register_cb st (i + 1) .branch_skipped 0
      else st
    else st

/-- The function `block_trans_handler`: the loop over `i = 0 .. num_insns - 1`
on a freshly translated block. -/
def block_trans_handler (is_indirect_branch : List Nat → Nat → Bool) (tb : qemu_plugin_tb) :
    trans_state :=
  (List.range tb.insns.length).foldl (fun st i => block_trans_step is_indirect_branch tb i st)
    { cbs := [], cout := [] }

/-- The callbacks registered on instruction `i`, in registration order. -/
def insn_cbs (st : trans_state) (i : Nat) : List insn_cb :=
  (st.cbs.filter (fun r => r.1 == i)).map (fun r => r.2)

/-- The call the host makes for one registered callback. -/
def run_cb (env : host_env) (r : insn_cb) (s : plugin_state) : plugin_state :=
  match r.cb with
  | .branch_taken => branch_taken env r.userdata s
  | .branch_skipped => branch_skipped r.userdata s
  | .indirect_branch_exec => indirect_branch_exec r.userdata s
  | .indirect_branch_at_start => indirect_branch_at_start env r.userdata s

/-- The verdict of the classifier on instruction `j` of the block. -/
def insn_is_branch (is_indirect_branch : List Nat → Nat → Bool) (tb : qemu_plugin_tb)
    (j : Nat) : Bool :=
  is_indirect_branch (qemu_plugin_tb_get_insn tb j).data (qemu_plugin_tb_get_insn tb j).data.length

/-- The callbacks of instruction `j` in closed form: at index 0 the block-start
callback, at an interior index the `branch_skipped` left by a branch at `j - 1`
followed by the `indirect_branch_exec` of a branch at `j`. -/
def planned_cbs (is_indirect_branch : List Nat → Nat → Bool) (tb : qemu_plugin_tb)
    (j : Nat) : List insn_cb :=
  if j = 0 then
    [if insn_is_branch is_indirect_branch tb 0 then
        { cb := .indirect_branch_at_start, userdata := tb.vaddr }
      else { cb := .branch_taken, userdata := tb.vaddr }]
  else
    (if insn_is_branch is_indirect_branch tb (j - 1) then
        [{ cb := .branch_skipped, userdata := 0 }]
      else []) ++
    (if insn_is_branch is_indirect_branch tb j then
        [{ cb := .indirect_branch_exec, userdata := (qemu_plugin_tb_get_insn tb j).vaddr }]
      else [])

/-! ## The BranchTracker of section 4.3, written from the specification -/

/-- The states of the tracker. -/
inductive TrackerState where
  | Idle
  | AwaitingDestination (callsite_vaddr : Nat)
  deriving DecidableEq, Repr

/-- An emitted edge: callsite and destination. -/
structure Edge where
  callsite : Nat
  destination : Nat
  deriving DecidableEq, Repr

/-- Transition "resolve-if-pending" with destination `d`. -/
def TrackerState.resolve_if_pending (d : Nat) : TrackerState → TrackerState × List Edge
  | .Idle => (.Idle, [])
  | .AwaitingDestination c => (.Idle, [{ callsite := c, destination := d }])

/-- Transition "an indirect-branch instruction executes" at address `a`. -/
def TrackerState.set_pending (a : Nat) : TrackerState → TrackerState × List Edge
  | _ => (.AwaitingDestination a, [])

/-- Transition "clear-pending". -/
def TrackerState.clear_pending : TrackerState → TrackerState × List Edge
  | _ => (.Idle, [])

/-- The tracker state a plugin state stands for. -/
def tracker_of (s : plugin_state) : TrackerState :=
  match s.branch_addr with
  | none => .Idle
  | some c => .AwaitingDestination c

/-- Writing a list of edges, one `mark_indirect_branch` call each. -/
def record_edges (env : host_env) (edges : List Edge) (io : io_state) : io_state :=
  edges.foldl (fun io e => mark_indirect_branch env e.callsite e.destination io) io

/-! ## Executing the registered callbacks -/

/-- The host firing a list of callbacks, first registered first. -/
def run_cbs (env : host_env) (cbs : List insn_cb) (s : plugin_state) : plugin_state :=
  cbs.foldl (fun s r => run_cb env r s) s

/-- Instruction `j` of a planned block executes: its callbacks fire in the
order they were registered. -/
def exec_insn (env : host_env) (plan : trans_state) (j : Nat) (s : plugin_state) :
    plugin_state :=
  run_cbs env (insn_cbs plan j) s

/-- The first `k` instructions of a planned block execute one after the
other. -/
def exec_insns (env : host_env) (plan : trans_state) (k : Nat) (s : plugin_state) :
    plugin_state :=
  (List.range k).foldl (fun s j => exec_insn env plan j s) s

/-- The address the planner hands to the callback of a branch at index `j`:
the block start for index 0, the instruction's own address otherwise. -/
def callsite_payload (tb : qemu_plugin_tb) (j : Nat) : Nat :=
  if j = 0 then tb.vaddr else (qemu_plugin_tb_get_insn tb j).vaddr

/-- The tracker transition of section 4.3 that a registered callback stands
for; the combined callback resolves and then sets. -/
def tracker_step (r : insn_cb) (t : TrackerState) : TrackerState × List Edge :=
  match r.cb with
  | .branch_taken => t.resolve_if_pending r.userdata
  | .branch_skipped => t.clear_pending
  | .indirect_branch_exec => t.set_pending r.userdata
  | .indirect_branch_at_start =>
    (((t.resolve_if_pending r.userdata).1.set_pending r.userdata).1,
      (t.resolve_if_pending r.userdata).2 ++
        ((t.resolve_if_pending r.userdata).1.set_pending r.userdata).2)

/-- The tracker run over a sequence of callbacks: the final state and the edges
emitted, in order. -/
def tracker_run : List insn_cb → TrackerState → TrackerState × List Edge
  | [], t => (t, [])
  | r :: rest, t =>
    ((tracker_run rest (tracker_step r t).1).1,
      (tracker_step r t).2 ++ (tracker_run rest (tracker_step r t).1).2)

/-- A callback that sets the pending branch: set-pending or combined. -/
def sets_pending (r : insn_cb) : Bool :=
  r.cb == .indirect_branch_exec || r.cb == .indirect_branch_at_start

/-- A callback that resolves a pending branch: resolve-if-pending or
combined. -/
def resolves_pending (r : insn_cb) : Bool :=
  r.cb == .branch_taken || r.cb == .indirect_branch_at_start

/-- The edges of a callback sequence read off its adjacent pairs: a callback
that sets the pending branch directly followed by one that resolves it. -/
def adjacent_edges : List insn_cb → List Edge
  | [] => []
  | [_] => []
  | x :: y :: rest =>
    (if sets_pending x && resolves_pending y then
        [{ callsite := x.userdata, destination := y.userdata }]
      else []) ++ adjacent_edges (y :: rest)

/-! ## The record format of sections 4.5 and 6, written from the specification -/

/-- The sixteen lowercase hexadecimal digits, in order of value. -/
def hex_digits : List Char := "0123456789abcdef".data

/-- The value of a hexadecimal digit: its place among `hex_digits`. -/
def hex_digit_value (c : Char) : Nat := hex_digits.indexOf c

/-- The number a string of hexadecimal digits denotes, most significant digit
first. -/
def hex_value (s : String) : Nat :=
  s.data.foldl (fun acc c => 16 * acc + hex_digit_value c) 0

/-- One record of the log: six fields separated by commas, the four numbers
written as `0x` and their hexadecimal digits. -/
def record_line (callsite_offset dst_offset callsite_vaddr dst_vaddr : Nat)
    (callsite_image dst_image : String) : String :=
  String.intercalate ","
    ["0x" ++ hex callsite_offset, "0x" ++ hex dst_offset, "0x" ++ hex callsite_vaddr,
      "0x" ++ hex dst_vaddr, callsite_image, dst_image]

/-- The edge a sequence emits with its first callback when it starts in state
`t`: the pending callsite of `t` paired with the payload of a first callback
that resolves. -/
def first_edge (t : TrackerState) (cbs : List insn_cb) : List Edge :=
  match t, cbs with
  | .AwaitingDestination c, y :: _ =>
    if resolves_pending y then [{ callsite := c, destination := y.userdata }] else []
  | _, _ => []

/-! ## backend_demo.c: architecture selection -/

/-- The function `arch_supported` of `backend_demo.c`: the returned flag and
the value of the static variable `arch` after the call.  A `strcmp` that gives
0 is equality of the two names. -/
def arch_supported (arch_name : String) (arch : arch_t) : Bool × arch_t :=
  if arch_name = "arm" then (true, .arm)
  else if arch_name = "x86_64" then (true, .x86_64)
  else if arch_name = "mips" then (true, .mips)
  else if arch_name = "mipsel" then (true, .mipsel)
  else (false, arch)

/-- The four bytes of a 32-bit word in little-endian order. -/
def le_bytes (w : Nat) : List Nat :=
  [w % 256, (w >>> 8) % 256, (w >>> 16) % 256, (w >>> 24) % 256]

/-- The four bytes of a 32-bit word in big-endian order. -/
def be_bytes (w : Nat) : List Nat :=
  [(w >>> 24) % 256, (w >>> 16) % 256, (w >>> 8) % 256, w % 256]

/-! ## Properties of the classifier -/

theorem insn_byte_lt (insn_data : List Nat) (i : Nat) : insn_byte insn_data i < 256 := by
  unfold insn_byte
  omega

theorem word_of_bytes_lt {a b c d : Nat} (ha : a < 256) (hb : b < 256) (hc : c < 256)
    (hd : d < 256) : a ||| b <<< 8 ||| c <<< 16 ||| d <<< 24 < 2 ^ 32 := by
  have h8 : b <<< 8 < 2 ^ 32 := by rw [Nat.shiftLeft_eq]; omega
  have h16 : c <<< 16 < 2 ^ 32 := by rw [Nat.shiftLeft_eq]; omega
  have h24 : d <<< 24 < 2 ^ 32 := by rw [Nat.shiftLeft_eq]; omega
  have h0 : a < 2 ^ 32 := by omega
  exact Nat.or_lt_two_pow (Nat.or_lt_two_pow (Nat.or_lt_two_pow h0 h8) h16) h24

theorem le_word_lt (insn_data : List Nat) : le_word insn_data < 2 ^ 32 :=
  word_of_bytes_lt (insn_byte_lt _ _) (insn_byte_lt _ _) (insn_byte_lt _ _) (insn_byte_lt _ _)

theorem be_word_lt (insn_data : List Nat) : be_word insn_data < 2 ^ 32 := by
  have h0 := insn_byte_lt insn_data 0
  have h1 := insn_byte_lt insn_data 1
  have h2 := insn_byte_lt insn_data 2
  have h3 := insn_byte_lt insn_data 3
  have h24 : insn_byte insn_data 0 <<< 24 < 2 ^ 32 := by rw [Nat.shiftLeft_eq]; omega
  have h16 : insn_byte insn_data 1 <<< 16 < 2 ^ 32 := by rw [Nat.shiftLeft_eq]; omega
  have h8 : insn_byte insn_data 2 <<< 8 < 2 ^ 32 := by rw [Nat.shiftLeft_eq]; omega
  have hb : insn_byte insn_data 3 < 2 ^ 32 := by omega
  exact Nat.or_lt_two_pow (Nat.or_lt_two_pow (Nat.or_lt_two_pow h24 h16) h8) hb

/-- The `uint32_t` word the ARM branch builds is the little-endian word. -/
theorem arm_word_eq (insn_data : List Nat) :
    (insn_byte insn_data 0 ||| (insn_byte insn_data 1 <<< 8) % 2 ^ 32 |||
      (insn_byte insn_data 2 <<< 16) % 2 ^ 32 ||| (insn_byte insn_data 3 <<< 24) % 2 ^ 32) % 2 ^ 32
      = le_word insn_data := by
  have h1 := insn_byte_lt insn_data 1
  have h2 := insn_byte_lt insn_data 2
  have h3 := insn_byte_lt insn_data 3
  have h8 : insn_byte insn_data 1 <<< 8 < 2 ^ 32 := by rw [Nat.shiftLeft_eq]; omega
  have h16 : insn_byte insn_data 2 <<< 16 < 2 ^ 32 := by rw [Nat.shiftLeft_eq]; omega
  have h24 : insn_byte insn_data 3 <<< 24 < 2 ^ 32 := by rw [Nat.shiftLeft_eq]; omega
  rw [Nat.mod_eq_of_lt h8, Nat.mod_eq_of_lt h16, Nat.mod_eq_of_lt h24]
  exact Nat.mod_eq_of_lt (le_word_lt insn_data)

/-- The `uint32_t` word the MIPS branches build is the big-endian word. -/
theorem mips_word_eq (insn_data : List Nat) :
    ((insn_byte insn_data 0 <<< 24) ||| (insn_byte insn_data 1 <<< 16) |||
      (insn_byte insn_data 2 <<< 8) ||| insn_byte insn_data 3) % 2 ^ 32 = be_word insn_data :=
  Nat.mod_eq_of_lt (be_word_lt insn_data)

/-- The code is "the architecture's rule, else the fallback". -/
theorem is_indirect_branch_eq (fallback : List Nat → Nat → Bool) (arch : arch_t)
    (insn_data : List Nat) (insn_size : Nat) :
    is_indirect_branch fallback arch insn_data insn_size
      = (arch_rule arch insn_data insn_size || fallback insn_data insn_size) := by
  cases arch
  · simp only [is_indirect_branch, arch_rule, arm_word_eq]
    by_cases h4 : insn_size = 4
    · by_cases hw : le_word insn_data ||| 0xf000000f = 0x012fff30 ||| 0xf000000f
      · simp [h4, hw]
      · simp [h4, hw]
    · simp [h4]
  · simp only [is_indirect_branch, arch_rule]
    by_cases h1 : insn_size = 2 ∧ (insn_byte insn_data 0 = 0xff ∧
        0xd0 ≤ insn_byte insn_data 1 ∧ insn_byte insn_data 1 ≤ 0xd6)
    · simp [h1]
    · by_cases h2 : insn_size = 3 ∧ (insn_byte insn_data 0 = 0x41 ∧
          insn_byte insn_data 1 = 0xff ∧ 0xd0 ≤ insn_byte insn_data 2 ∧
          insn_byte insn_data 2 ≤ 0xd6)
      · simp [h2]
      · simp [h1, h2]
  · simp only [is_indirect_branch, arch_rule, mips_word_eq]
    by_cases h4 : insn_size = 4
    · by_cases ha : be_word insn_data = 0x09f82003
      · simp [h4, ha]
      · by_cases hb : be_word insn_data = 0x08002003
        · simp [h4, hb]
        · simp [h4, ha, hb]
    · simp [h4]
  · simp only [is_indirect_branch, arch_rule, mips_word_eq]
    by_cases h4 : insn_size = 4
    · by_cases ha : be_word insn_data = 0x0320f809
      · simp [h4, ha]
      · by_cases hb : be_word insn_data = 0x03020008
        · simp [h4, hb]
        · simp [h4, ha, hb]
    · simp [h4]

theorem blx_mask_iff (w : Nat) (hw : w < 2 ^ 32) :
    w ||| 0xf000000f = 0x012fff30 ||| 0xf000000f ↔ w &&& 0x0ffffff0 = 0x012fff30 := by
  constructor
  · intro h
    apply Nat.eq_of_testBit_eq
    intro i
    have hi := congrArg (fun x => Nat.testBit x i) h
    simp only [Nat.testBit_or, Nat.testBit_and] at hi ⊢
    by_cases h32 : i < 32
    · interval_cases i <;> simp_all [Nat.testBit]
    · have hle : 2 ^ 32 ≤ 2 ^ i := Nat.pow_le_pow_right (by decide) (by omega)
      have h1 : Nat.testBit 0x0ffffff0 i = false := Nat.testBit_lt_two_pow (by omega)
      have h2 : Nat.testBit 0x012fff30 i = false := Nat.testBit_lt_two_pow (by omega)
      simp [h1, h2]
  · intro h
    apply Nat.eq_of_testBit_eq
    intro i
    have hi := congrArg (fun x => Nat.testBit x i) h
    simp only [Nat.testBit_or, Nat.testBit_and] at hi ⊢
    by_cases h32 : i < 32
    · interval_cases i <;> simp_all [Nat.testBit]
    · have hle : 2 ^ 32 ≤ 2 ^ i := Nat.pow_le_pow_right (by decide) (by omega)
      have h0 : Nat.testBit w i = false := Nat.testBit_lt_two_pow (by omega)
      have h2 : Nat.testBit 0x012fff30 i = false := Nat.testBit_lt_two_pow (by omega)
      simp [h0, h2]

theorem le_word_window4 {b0 b1 b2 b3 : Nat} (h0 : b0 < 256) (h1 : b1 < 256) (h2 : b2 < 256)
    (h3 : b3 < 256) : le_word [b0, b1, b2, b3] = b0 ||| b1 <<< 8 ||| b2 <<< 16 ||| b3 <<< 24 := by
  simp [le_word, insn_byte, Nat.mod_eq_of_lt, h0, h1, h2, h3]

theorem be_word_window4 {b0 b1 b2 b3 : Nat} (h0 : b0 < 256) (h1 : b1 < 256) (h2 : b2 < 256)
    (h3 : b3 < 256) : be_word [b0, b1, b2, b3] = b0 <<< 24 ||| b1 <<< 16 ||| b2 <<< 8 ||| b3 := by
  simp [be_word, insn_byte, Nat.mod_eq_of_lt, h0, h1, h2, h3]

/-- C1: for each of the four architectures, every window and every size,
`is_indirect_branch` is true when the architecture's own rule matches and is
otherwise exactly the fallback's verdict on the same bytes and size; an ARM or
MIPS window of a size other than 4 and an x86-64 window of a size other than 2
and 3 get the fallback's verdict. -/
theorem is_indirect_branch_rule_or_fallback (fallback : List Nat → Nat → Bool) (arch : arch_t)
    (insn_data : List Nat) (insn_size : Nat) :
    (arch_rule arch insn_data insn_size = true →
      is_indirect_branch fallback arch insn_data insn_size = true) ∧
    (arch_rule arch insn_data insn_size = false →
      is_indirect_branch fallback arch insn_data insn_size = fallback insn_data insn_size) ∧
    (arch ≠ .x86_64 → insn_size ≠ 4 →
      is_indirect_branch fallback arch insn_data insn_size = fallback insn_data insn_size) ∧
    (arch = .x86_64 → insn_size ≠ 2 → insn_size ≠ 3 →
      is_indirect_branch fallback arch insn_data insn_size = fallback insn_data insn_size) := by
  rw [is_indirect_branch_eq]
  refine ⟨?_, ?_, ?_, ?_⟩
  · intro h
    simp [h]
  · intro h
    simp [h]
  · intro ha hn
    cases arch <;> simp_all [arch_rule]
  · intro ha h2 h3
    subst ha
    simp [arch_rule, h2, h3]

/-- C1 at concrete inputs: a matching x86-64 window is accepted although the
fallback rejects it, a non-matching one gets the fallback's verdict, and a
3-byte ARM window and a 4-byte x86-64 window get the fallback's verdict. -/
theorem is_indirect_branch_rule_or_fallback_witness :
    is_indirect_branch reject_all .x86_64 [0xff, 0xd0] 2 = true ∧
    is_indirect_branch (fun _ _ => true) .x86_64 [0xff, 0xd7] 2 = true ∧
    is_indirect_branch (fun _ _ => true) .arm [0x30, 0xff, 0x2f] 3 = true ∧
    is_indirect_branch reject_all .x86_64 [0x41, 0xff, 0xd3, 0x90] 4 = false :=
  ⟨(is_indirect_branch_rule_or_fallback reject_all .x86_64 [0xff, 0xd0] 2).1 (by decide),
   (is_indirect_branch_rule_or_fallback (fun _ _ => true) .x86_64 [0xff, 0xd7] 2).2.1 (by decide),
   (is_indirect_branch_rule_or_fallback (fun _ _ => true) .arm [0x30, 0xff, 0x2f] 3).2.2.1
     (by decide) (by decide),
   (is_indirect_branch_rule_or_fallback reject_all .x86_64 [0x41, 0xff, 0xd3, 0x90] 4).2.2.2
     rfl (by decide) (by decide)⟩

/-- C2: on x86-64 with a fallback that rejects everything, a window is
classified as an indirect branch exactly when it is the 2-byte form `FF D0..D6`
or the 3-byte form `41 FF D0..D6`; the listed examples classify as the
specification says. -/
theorem x86_64_call_register_iff :
    (∀ (insn_data : List Nat) (insn_size : Nat),
      is_indirect_branch reject_all .x86_64 insn_data insn_size = true ↔
        (insn_size = 2 ∧ insn_byte insn_data 0 = 0xFF ∧
          0xD0 ≤ insn_byte insn_data 1 ∧ insn_byte insn_data 1 ≤ 0xD6) ∨
        (insn_size = 3 ∧ insn_byte insn_data 0 = 0x41 ∧ insn_byte insn_data 1 = 0xFF ∧
          0xD0 ≤ insn_byte insn_data 2 ∧ insn_byte insn_data 2 ≤ 0xD6)) ∧
    ([0xD0, 0xD1, 0xD2, 0xD3, 0xD4, 0xD5, 0xD6].all
      (fun m => is_indirect_branch reject_all .x86_64 [0xFF, m] 2) = true) ∧
    is_indirect_branch reject_all .x86_64 [0x41, 0xFF, 0xD3] 3 = true ∧
    is_indirect_branch reject_all .x86_64 [0xFF, 0xD7] 2 = false ∧
    is_indirect_branch reject_all .x86_64 [0xFF, 0xCF] 2 = false ∧
    is_indirect_branch reject_all .x86_64 [0x40, 0xFF, 0xD3] 3 = false := by
  refine ⟨?_, by decide, by decide, by decide, by decide, by decide⟩
  intro insn_data insn_size
  rw [is_indirect_branch_eq]
  simp [arch_rule, reject_all]

/-- C3: on ARM with a fallback that rejects everything, a 4-byte window with
little-endian word `w` is classified as an indirect branch exactly when
`w ||| 0xf000000f = 0x012fff30 ||| 0xf000000f`, which is the same as
`w &&& 0x0ffffff0 = 0x012fff30`. -/
theorem arm_blx_iff (b0 b1 b2 b3 : Nat) (h0 : b0 < 256) (h1 : b1 < 256) (h2 : b2 < 256)
    (h3 : b3 < 256) :
    (is_indirect_branch reject_all .arm [b0, b1, b2, b3] 4 = true ↔
      (b0 ||| b1 <<< 8 ||| b2 <<< 16 ||| b3 <<< 24) ||| 0xf000000f
        = 0x012fff30 ||| 0xf000000f) ∧
    ((b0 ||| b1 <<< 8 ||| b2 <<< 16 ||| b3 <<< 24) ||| 0xf000000f
        = 0x012fff30 ||| 0xf000000f ↔
      (b0 ||| b1 <<< 8 ||| b2 <<< 16 ||| b3 <<< 24) &&& 0x0ffffff0 = 0x012fff30) := by
  refine ⟨?_, blx_mask_iff _ (word_of_bytes_lt h0 h1 h2 h3)⟩
  rw [is_indirect_branch_eq]
  simp [arch_rule, reject_all, le_word_window4 h0 h1 h2 h3]

/-- C3 at the window `30 ff 2f e1` (`blx r0`, word `0xe12fff30`): it is
accepted and satisfies both forms of the test. -/
theorem arm_blx_iff_witness :
    is_indirect_branch reject_all .arm [0x30, 0xff, 0x2f, 0xe1] 4 = true ∧
    (0x30 ||| 0xff <<< 8 ||| 0x2f <<< 16 ||| 0xe1 <<< 24) &&& 0x0ffffff0 = 0x012fff30 :=
  have h := arm_blx_iff 0x30 0xff 0x2f 0xe1 (by decide) (by decide) (by decide) (by decide)
  ⟨h.1.2 (by decide), h.2.1 (by decide)⟩

/-- C4: with a fallback that rejects everything, a 4-byte window read as the
big-endian word `W` is classified as an indirect branch under MIPS exactly when
`W` is `0x08002003` or `0x09f82003`, and under MIPS little-endian exactly when
`W` is `0x03020008` or `0x0320f809`; each pair is accepted under its own
architecture and rejected under the other. -/
theorem mips_jr_jalr_iff (b0 b1 b2 b3 : Nat) (h0 : b0 < 256) (h1 : b1 < 256) (h2 : b2 < 256)
    (h3 : b3 < 256) :
    (is_indirect_branch reject_all .mips [b0, b1, b2, b3] 4 = true ↔
      (b0 <<< 24 ||| b1 <<< 16 ||| b2 <<< 8 ||| b3 = 0x08002003 ∨
        b0 <<< 24 ||| b1 <<< 16 ||| b2 <<< 8 ||| b3 = 0x09f82003)) ∧
    (is_indirect_branch reject_all .mipsel [b0, b1, b2, b3] 4 = true ↔
      (b0 <<< 24 ||| b1 <<< 16 ||| b2 <<< 8 ||| b3 = 0x03020008 ∨
        b0 <<< 24 ||| b1 <<< 16 ||| b2 <<< 8 ||| b3 = 0x0320f809)) ∧
    (is_indirect_branch reject_all .mips [0x08, 0x00, 0x20, 0x03] 4 = true ∧
      is_indirect_branch reject_all .mips [0x09, 0xf8, 0x20, 0x03] 4 = true ∧
      is_indirect_branch reject_all .mipsel [0x08, 0x00, 0x20, 0x03] 4 = false ∧
      is_indirect_branch reject_all .mipsel [0x09, 0xf8, 0x20, 0x03] 4 = false) ∧
    (is_indirect_branch reject_all .mipsel [0x03, 0x02, 0x00, 0x08] 4 = true ∧
      is_indirect_branch reject_all .mipsel [0x03, 0x20, 0xf8, 0x09] 4 = true ∧
      is_indirect_branch reject_all .mips [0x03, 0x02, 0x00, 0x08] 4 = false ∧
      is_indirect_branch reject_all .mips [0x03, 0x20, 0xf8, 0x09] 4 = false) := by
  refine ⟨?_, ?_, by decide, by decide⟩
  · rw [is_indirect_branch_eq]
    simp [arch_rule, reject_all, be_word_window4 h0 h1 h2 h3]
  · rw [is_indirect_branch_eq]
    simp [arch_rule, reject_all, be_word_window4 h0 h1 h2 h3]

/-- C4 at the window `09 f8 20 03`: accepted under MIPS, rejected under MIPS
little-endian. -/
theorem mips_jr_jalr_iff_witness :
    is_indirect_branch reject_all .mips [0x09, 0xf8, 0x20, 0x03] 4 = true ∧
    ¬ is_indirect_branch reject_all .mipsel [0x09, 0xf8, 0x20, 0x03] 4 = true :=
  have h := mips_jr_jalr_iff 0x09 0xf8 0x20 0x03 (by decide) (by decide) (by decide) (by decide)
  ⟨h.1.2 (Or.inr (by decide)), fun hc => absurd (h.2.1.1 hc) (by decide)⟩

/-! ## Properties of the pending-branch callbacks -/

theorem mark_indirect_branch_outfile_length (env : host_env) (c d : Nat) (io : io_state) :
    (mark_indirect_branch env c d io).outfile.length = io.outfile.length + 1 := by
  unfold mark_indirect_branch
  by_cases h1 : (mark_resolve env c d).callsite.isNone = true <;>
    by_cases h2 : (mark_resolve env c d).dst.isNone = true <;> simp [h1, h2]

/-- C5: the three callbacks follow the transition table of the tracker.
`branch_taken` with destination `d` changes nothing when no branch is pending
and, when `c` is pending, makes the one call `mark_indirect_branch c d` (one
more record in the output) and clears the slot; `indirect_branch_exec` with
address `a` sets the slot to `a` from any state and writes nothing;
`branch_skipped` clears the slot from any state and writes nothing. -/
theorem callbacks_implement_tracker (env : host_env) (s : plugin_state) (d a u : Nat) :
    (s.branch_addr = none → branch_taken env d s = s) ∧
    (∀ c, s.branch_addr = some c →
      branch_taken env d s = { branch_addr := none, io := mark_indirect_branch env c d s.io } ∧
      (branch_taken env d s).io.outfile.length = s.io.outfile.length + 1) ∧
    indirect_branch_exec a s = { branch_addr := some a, io := s.io } ∧
    branch_skipped u s = { branch_addr := none, io := s.io } ∧
    (tracker_of (branch_taken env d s) = ((tracker_of s).resolve_if_pending d).1 ∧
      (branch_taken env d s).io = record_edges env ((tracker_of s).resolve_if_pending d).2 s.io) ∧
    (tracker_of (indirect_branch_exec a s) = ((tracker_of s).set_pending a).1 ∧
      (indirect_branch_exec a s).io = record_edges env ((tracker_of s).set_pending a).2 s.io) ∧
    (tracker_of (branch_skipped u s) = ((tracker_of s).clear_pending).1 ∧
      (branch_skipped u s).io = record_edges env ((tracker_of s).clear_pending).2 s.io) := by
  obtain ⟨ba, io⟩ := s
  refine ⟨?_, ?_, rfl, rfl, ?_, ?_, ?_⟩
  · intro h
    simp only at h
    subst h
    rfl
  · intro c h
    simp only at h
    subst h
    exact ⟨rfl, mark_indirect_branch_outfile_length env c d io⟩
  · cases ba <;> exact ⟨rfl, rfl⟩
  · cases ba <;> exact ⟨rfl, rfl⟩
  · cases ba <;> exact ⟨rfl, rfl⟩

/-- C5 at a concrete state: with `0x400000` pending and no mapping lines,
`branch_taken 0x400010` clears the slot and appends the one record of the edge
`(0x400000, 0x400010)`; from the idle state it changes nothing. -/
theorem callbacks_implement_tracker_witness :
    branch_taken ⟨0, fun _ => ⟨0, 0, 0, 0⟩, [], 0, 0⟩ 0x400010 ⟨some 0x400000, ⟨[], []⟩⟩
      = { branch_addr := none,
          io := mark_indirect_branch ⟨0, fun _ => ⟨0, 0, 0, 0⟩, [], 0, 0⟩ 0x400000 0x400010
            ⟨[], []⟩ } ∧
    branch_taken ⟨0, fun _ => ⟨0, 0, 0, 0⟩, [], 0, 0⟩ 0x400010 ⟨none, ⟨[], []⟩⟩
      = ⟨none, ⟨[], []⟩⟩ :=
  ⟨((callbacks_implement_tracker ⟨0, fun _ => ⟨0, 0, 0, 0⟩, [], 0, 0⟩
      ⟨some 0x400000, ⟨[], []⟩⟩ 0x400010 0 0).2.1 0x400000 rfl).1,
   (callbacks_implement_tracker ⟨0, fun _ => ⟨0, 0, 0, 0⟩, [], 0, 0⟩
      ⟨none, ⟨[], []⟩⟩ 0x400010 0 0).1 rfl⟩

/-- C6: `indirect_branch_at_start a` is `branch_taken a` followed by
`indirect_branch_exec a`.  With `c` pending it makes the one call
`mark_indirect_branch c a`, with the old callsite `c`, and ends with `a`
pending; with nothing pending it writes nothing and ends with `a` pending. -/
theorem indirect_branch_at_start_resolves_then_sets (env : host_env) (s : plugin_state)
    (a : Nat) :
    indirect_branch_at_start env a s = indirect_branch_exec a (branch_taken env a s) ∧
    (∀ c, s.branch_addr = some c →
      indirect_branch_at_start env a s
        = { branch_addr := some a, io := mark_indirect_branch env c a s.io } ∧
      (indirect_branch_at_start env a s).io.outfile.length = s.io.outfile.length + 1) ∧
    (s.branch_addr = none →
      indirect_branch_at_start env a s = { branch_addr := some a, io := s.io }) ∧
    tracker_of (indirect_branch_at_start env a s) = .AwaitingDestination a ∧
    (indirect_branch_at_start env a s).io
      = record_edges env ((tracker_of s).resolve_if_pending a).2 s.io := by
  obtain ⟨ba, io⟩ := s
  refine ⟨rfl, ?_, ?_, rfl, ?_⟩
  · intro c h
    simp only at h
    subst h
    exact ⟨rfl, mark_indirect_branch_outfile_length env c a io⟩
  · intro h
    simp only at h
    subst h
    rfl
  · cases ba <;> rfl

/-- C6 at a concrete state: with `0x400000` pending, the combined callback at
`0x400020` records the edge `(0x400000, 0x400020)` and leaves `0x400020`
pending; from the idle state it only sets the slot. -/
theorem indirect_branch_at_start_resolves_then_sets_witness :
    indirect_branch_at_start ⟨0, fun _ => ⟨0, 0, 0, 0⟩, [], 0, 0⟩ 0x400020
        ⟨some 0x400000, ⟨[], []⟩⟩
      = { branch_addr := some 0x400020,
          io := mark_indirect_branch ⟨0, fun _ => ⟨0, 0, 0, 0⟩, [], 0, 0⟩ 0x400000 0x400020
            ⟨[], []⟩ } ∧
    indirect_branch_at_start ⟨0, fun _ => ⟨0, 0, 0, 0⟩, [], 0, 0⟩ 0x400020 ⟨none, ⟨[], []⟩⟩
      = ⟨some 0x400020, ⟨[], []⟩⟩ :=
  ⟨((indirect_branch_at_start_resolves_then_sets ⟨0, fun _ => ⟨0, 0, 0, 0⟩, [], 0, 0⟩
      ⟨some 0x400000, ⟨[], []⟩⟩ 0x400020).2.1 0x400000 rfl).1,
   (indirect_branch_at_start_resolves_then_sets ⟨0, fun _ => ⟨0, 0, 0, 0⟩, [], 0, 0⟩
      ⟨none, ⟨[], []⟩⟩ 0x400020).2.2.1 rfl⟩

/-! ## Properties of the block planner -/

theorem insn_cbs_register_cb (st : trans_state) (i j : Nat) (cb : cb_fn) (u : Nat) :
    insn_cbs (register_cb st i cb u) j
      = insn_cbs st j ++ (if i = j then [{ cb := cb, userdata := u }] else []) := by
  by_cases h : i = j <;> simp [insn_cbs, register_cb, List.filter_append, h]

theorem insn_cbs_with_cout (st : trans_state) (c : List String) (j : Nat) :
    insn_cbs { st with cout := c } j = insn_cbs st j := rfl

/-- What one iteration of the loop adds to the callbacks of instruction `j`. -/
theorem insn_cbs_block_trans_step (cls : List Nat → Nat → Bool) (tb : qemu_plugin_tb)
    (i j : Nat) (st : trans_state) :
    insn_cbs (block_trans_step cls tb i st) j = insn_cbs st j ++
      (if i = 0 then
        (if j = 0 then
          [if insn_is_branch cls tb 0 then
              { cb := .indirect_branch_at_start, userdata := tb.vaddr }
            else { cb := .branch_taken, userdata := tb.vaddr }]
        else if j = 1 ∧ insn_is_branch cls tb 0 = true ∧ 1 < tb.insns.length then
          [{ cb := .branch_skipped, userdata := 0 }]
        else [])
      else if insn_is_branch cls tb i = true then
        (if j = i then
          [{ cb := .indirect_branch_exec, userdata := (qemu_plugin_tb_get_insn tb i).vaddr }]
        else if j = i + 1 ∧ i + 1 < tb.insns.length then
          [{ cb := .branch_skipped, userdata := 0 }]
        else [])
      else []) := by
  unfold block_trans_step
  by_cases hi : i = 0
  · subst hi
    by_cases hb : cls (qemu_plugin_tb_get_insn tb 0).data (qemu_plugin_tb_get_insn tb 0).data.length = true
    · by_cases hn : 1 < tb.insns.length
      · by_cases hj0 : j = 0
        · subst hj0
          simp [insn_is_branch, hb, hn, insn_cbs_register_cb]
        · by_cases hj1 : j = 1
          · subst hj1
            simp [insn_is_branch, hb, hn, insn_cbs_register_cb]
          · have h0 : ¬ 0 = j := fun h => hj0 h.symm
            have h1 : ¬ 1 = j := fun h => hj1 h.symm
            simp [insn_is_branch, hb, hn, insn_cbs_register_cb, hj0, hj1, h0, h1]
      · by_cases hj0 : j = 0
        · subst hj0
          simp [insn_is_branch, hb, hn, insn_cbs_register_cb]
        · have h0 : ¬ 0 = j := fun h => hj0 h.symm
          simp [insn_is_branch, hb, hn, insn_cbs_register_cb, hj0, h0]
    · by_cases hj0 : j = 0
      · subst hj0
        simp [insn_is_branch, hb, insn_cbs_register_cb]
      · have h0 : ¬ 0 = j := fun h => hj0 h.symm
        simp [insn_is_branch, hb, insn_cbs_register_cb, hj0, h0]
  · by_cases hb : cls (qemu_plugin_tb_get_insn tb i).data (qemu_plugin_tb_get_insn tb i).data.length = true
    · by_cases hn : i + 1 < tb.insns.length
      · by_cases hji : j = i
        · subst hji
          simp [insn_is_branch, hb, hn, hi, insn_cbs_register_cb, insn_cbs_with_cout]
          split <;> simp [insn_cbs_with_cout, insn_cbs_register_cb]
        · by_cases hj1 : j = i + 1
          · subst hj1
            simp [insn_is_branch, hb, hn, hi, insn_cbs_register_cb]
            split <;> simp [insn_cbs_with_cout, insn_cbs_register_cb]
          · have h0 : ¬ i = j := fun h => hji h.symm
            have h1 : ¬ i + 1 = j := fun h => hj1 h.symm
            simp [insn_is_branch, hb, hn, hi, insn_cbs_register_cb, hji, hj1, h0, h1]
            split <;> simp [insn_cbs_with_cout, insn_cbs_register_cb, h0]
      · by_cases hji : j = i
        · subst hji
          simp [insn_is_branch, hb, hn, hi, insn_cbs_register_cb]
        · have h0 : ¬ i = j := fun h => hji h.symm
          simp [insn_is_branch, hb, hn, hi, insn_cbs_register_cb, hji, h0]
    · simp [insn_is_branch, hb, hi]

/-- The callbacks of every instruction after the first `k` iterations. -/
theorem insn_cbs_after_iterations (cls : List Nat → Nat → Bool) (tb : qemu_plugin_tb)
    (k : Nat) (hk : k ≤ tb.insns.length) (j : Nat) :
    insn_cbs ((List.range k).foldl (fun st i => block_trans_step cls tb i st)
        { cbs := [], cout := [] }) j
      = if j < k then planned_cbs cls tb j
        else if j = k ∧ 0 < k ∧ k < tb.insns.length ∧ insn_is_branch cls tb (k - 1) = true then
          [{ cb := .branch_skipped, userdata := 0 }]
        else [] := by
  induction k with
  | zero => simp [insn_cbs]
  | succ k ih =>
    have ih := ih (by omega)
    rw [List.range_succ, List.foldl_append, List.foldl_cons, List.foldl_nil,
      insn_cbs_block_trans_step, ih]
    by_cases hk0 : k = 0
    · subst hk0
      by_cases hj0 : j = 0
      · subst hj0
        simp [planned_cbs]
      · by_cases hj1 : j = 1
        · subst hj1
          by_cases hb : insn_is_branch cls tb 0 = true
          · have hn : 1 ≤ tb.insns.length := hk
            by_cases hn1 : 1 < tb.insns.length <;> simp [hb, hn1]
          · simp [hb]
        · have h1 : ¬ j < 1 := by omega
          simp [hj0, hj1, h1]
    · have hkpos : 0 < k := Nat.pos_of_ne_zero hk0
      have hkn : k < tb.insns.length := by omega
      by_cases hjk : j < k
      · have h1 : j < k + 1 := by omega
        have h2 : ¬ j = k := by omega
        have h3 : ¬ j = k + 1 := by omega
        simp [hjk, h1, h2, h3, hk0]
      · by_cases hje : j = k
        · subst hje
          by_cases hb : insn_is_branch cls tb j = true <;>
            by_cases hp : insn_is_branch cls tb (j - 1) = true <;>
            simp [planned_cbs, hk0, hkpos, hkn, hb, hp]
        · by_cases hj1 : j = k + 1
          · subst hj1
            by_cases hb : insn_is_branch cls tb k = true <;>
              by_cases hn : k + 1 < tb.insns.length <;> simp [hk0, hb, hn]
          · have h1 : ¬ j < k + 1 := by omega
            simp [hjk, hje, hj1, h1, hk0]

/-- The callbacks the planner leaves on instruction `j` of the block. -/
theorem insn_cbs_block_trans_handler (cls : List Nat → Nat → Bool) (tb : qemu_plugin_tb)
    (j : Nat) (hj : j < tb.insns.length) :
    insn_cbs (block_trans_handler cls tb) j = planned_cbs cls tb j := by
  unfold block_trans_handler
  rw [insn_cbs_after_iterations cls tb tb.insns.length (Nat.le_refl _) j]
  simp [hj]

/-- The planner registers nothing on an index outside the block. -/
theorem insn_cbs_block_trans_handler_outside (cls : List Nat → Nat → Bool) (tb : qemu_plugin_tb)
    (j : Nat) (hj : tb.insns.length ≤ j) :
    insn_cbs (block_trans_handler cls tb) j = [] := by
  unfold block_trans_handler
  rw [insn_cbs_after_iterations cls tb tb.insns.length (Nat.le_refl _) j]
  have h1 : ¬ j < tb.insns.length := by omega
  simp [h1]

theorem cout_block_trans_step (cls : List Nat → Nat → Bool) (tb : qemu_plugin_tb)
    (i : Nat) (st : trans_state) :
    (block_trans_step cls tb i st).cout = st.cout ++
      (if 0 < i ∧ i + 1 < tb.insns.length ∧ insn_is_branch cls tb i = true ∧
          insn_is_branch cls tb (i + 1) = true then [consecutive_warning] else []) := by
  unfold block_trans_step
  by_cases hi : i = 0
  · subst hi
    by_cases hb : cls (qemu_plugin_tb_get_insn tb 0).data (qemu_plugin_tb_get_insn tb 0).data.length = true
    · by_cases hn : 1 < tb.insns.length <;> simp [hb, hn, register_cb]
    · simp [hb, register_cb]
  · have hpos : 0 < i := Nat.pos_of_ne_zero hi
    by_cases hb : cls (qemu_plugin_tb_get_insn tb i).data (qemu_plugin_tb_get_insn tb i).data.length = true
    · by_cases hn : i + 1 < tb.insns.length
      · by_cases hc : cls (qemu_plugin_tb_get_insn tb (i + 1)).data
            (qemu_plugin_tb_get_insn tb (i + 1)).data.length = true <;>
          simp [insn_is_branch, hi, hpos, hb, hn, hc, register_cb]
      · simp [insn_is_branch, hi, hb, hn, register_cb]
    · simp [insn_is_branch, hi, hb]

/-- The lines on `cout` after the first `k` iterations: only the warning, and
only if some interior branch below `k` is directly followed by a branch. -/
theorem cout_after_iterations (cls : List Nat → Nat → Bool) (tb : qemu_plugin_tb)
    (k : Nat) (w : String) :
    w ∈ ((List.range k).foldl (fun st i => block_trans_step cls tb i st)
        { cbs := [], cout := [] }).cout ↔
      w = consecutive_warning ∧ ∃ i, 0 < i ∧ i < k ∧ i + 1 < tb.insns.length ∧
        insn_is_branch cls tb i = true ∧ insn_is_branch cls tb (i + 1) = true := by
  induction k with
  | zero => simp
  | succ k ih =>
    rw [List.range_succ, List.foldl_append, List.foldl_cons, List.foldl_nil,
      cout_block_trans_step, List.mem_append, ih]
    constructor
    · rintro (⟨hw, i, h0, hik, hrest⟩ | h)
      · exact ⟨hw, i, h0, by omega, hrest⟩
      · by_cases hc : 0 < k ∧ k + 1 < tb.insns.length ∧ insn_is_branch cls tb k = true ∧
            insn_is_branch cls tb (k + 1) = true
        · rw [if_pos hc] at h
          exact ⟨List.mem_singleton.mp h, k, hc.1, by omega, hc.2⟩
        · rw [if_neg hc] at h
          exact absurd h (List.not_mem_nil _)
    · rintro ⟨hw, i, h0, hik, hrest⟩
      by_cases hik2 : i < k
      · exact Or.inl ⟨hw, i, h0, hik2, hrest⟩
      · have hie : i = k := by omega
        subst hie
        right
        rw [if_pos ⟨h0, hrest⟩]
        exact List.mem_singleton.mpr hw

theorem cout_block_trans_handler (cls : List Nat → Nat → Bool) (tb : qemu_plugin_tb)
    (w : String) :
    w ∈ (block_trans_handler cls tb).cout ↔
      w = consecutive_warning ∧ ∃ i, 0 < i ∧ i + 1 < tb.insns.length ∧
        insn_is_branch cls tb i = true ∧ insn_is_branch cls tb (i + 1) = true := by
  unfold block_trans_handler
  rw [cout_after_iterations]
  constructor
  · rintro ⟨hw, i, h0, _, hrest⟩
    exact ⟨hw, i, h0, hrest⟩
  · rintro ⟨hw, i, h0, hn, hrest⟩
    exact ⟨hw, i, h0, by omega, hn, hrest⟩

/-- C7: on a block with at least one instruction the planner leaves exactly one
callback on instruction 0, carrying the block's start address: `branch_taken`
when instruction 0 is not classified as an indirect branch and
`indirect_branch_at_start` when it is; in the latter case a `branch_skipped`
callback is on instruction 1 exactly when the block has more than one
instruction. -/
theorem planner_block_start (cls : List Nat → Nat → Bool) (tb : qemu_plugin_tb)
    (hn : 0 < tb.insns.length) :
    (insn_is_branch cls tb 0 = false →
      insn_cbs (block_trans_handler cls tb) 0
        = [{ cb := .branch_taken, userdata := tb.vaddr }]) ∧
    (insn_is_branch cls tb 0 = true →
      insn_cbs (block_trans_handler cls tb) 0
        = [{ cb := .indirect_branch_at_start, userdata := tb.vaddr }] ∧
      ((∃ r ∈ insn_cbs (block_trans_handler cls tb) 1, r.cb = .branch_skipped) ↔
        1 < tb.insns.length)) := by
  rw [insn_cbs_block_trans_handler cls tb 0 hn]
  refine ⟨?_, ?_⟩
  · intro hb
    simp [planned_cbs, hb]
  · intro hb
    refine ⟨by simp [planned_cbs, hb], ?_⟩
    by_cases h1 : 1 < tb.insns.length
    · rw [insn_cbs_block_trans_handler cls tb 1 h1]
      simp [planned_cbs, hb, h1]
    · rw [insn_cbs_block_trans_handler_outside cls tb 1 (by omega)]
      simp [h1]

/-- C7 on the x86-64 block `call rcx; nop` at `0x400000`: instruction 0 gets
the combined callback with payload `0x400000`, and instruction 1 gets a
`branch_skipped`, the block having two instructions. -/
theorem planner_block_start_witness :
    insn_cbs (block_trans_handler (is_indirect_branch reject_all .x86_64)
        ⟨0x400000, [⟨0x400000, [0xff, 0xd1]⟩, ⟨0x400002, [0x90]⟩]⟩) 0
      = [{ cb := .indirect_branch_at_start, userdata := 0x400000 }] ∧
    ∃ r ∈ insn_cbs (block_trans_handler (is_indirect_branch reject_all .x86_64)
        ⟨0x400000, [⟨0x400000, [0xff, 0xd1]⟩, ⟨0x400002, [0x90]⟩]⟩) 1, r.cb = .branch_skipped :=
  have h := (planner_block_start (is_indirect_branch reject_all .x86_64)
    ⟨0x400000, [⟨0x400000, [0xff, 0xd1]⟩, ⟨0x400002, [0x90]⟩]⟩ (by decide)).2 (by decide)
  ⟨h.1, h.2.2 (by decide)⟩

/-- C8 as stated fails: in the x86-64 block `nop; call rax; call rcx` the
interior branch at index 1 is directly followed by a branch at index 2, and
the planner does leave a `branch_skipped` callback on index 2. -/
theorem planner_consecutive_branches_counterexample :
    ¬ (∀ (cls : List Nat → Nat → Bool) (tb : qemu_plugin_tb) (i : Nat),
        0 < i → i < tb.insns.length → insn_is_branch cls tb i = true →
        ({ cb := .indirect_branch_exec, userdata := (qemu_plugin_tb_get_insn tb i).vaddr }
            : insn_cb) ∈ insn_cbs (block_trans_handler cls tb) i ∧
        (i + 1 < tb.insns.length →
          if insn_is_branch cls tb (i + 1) = true then
            (∀ r ∈ insn_cbs (block_trans_handler cls tb) (i + 1), r.cb ≠ .branch_skipped) ∧
            consecutive_warning ∈ (block_trans_handler cls tb).cout
          else
            ({ cb := .branch_skipped, userdata := 0 } : insn_cb)
              ∈ insn_cbs (block_trans_handler cls tb) (i + 1))) := by
  intro h
  have h1 := (h (is_indirect_branch reject_all .x86_64)
    ⟨0x1000, [⟨0x1000, [0x90]⟩, ⟨0x1001, [0xff, 0xd0]⟩, ⟨0x1003, [0xff, 0xd1]⟩]⟩ 1
    (by decide) (by decide) (by decide)).2 (by decide)
  rw [if_pos (by decide)] at h1
  exact h1.1 { cb := .branch_skipped, userdata := 0 } (by decide) rfl

/-- C8 as the code has it: for an interior instruction `i` classified as an
indirect branch the planner leaves an `indirect_branch_exec` callback with the
address of `i` on it; when instruction `i + 1` exists it gets a `branch_skipped`
callback in every case, placed before any callback of its own, and when
instruction `i + 1` is itself classified as an indirect branch the warning is
written as well. -/
theorem planner_interior_branch (cls : List Nat → Nat → Bool) (tb : qemu_plugin_tb) (i : Nat)
    (hi : 0 < i) (hn : i < tb.insns.length) (hb : insn_is_branch cls tb i = true) :
    ({ cb := .indirect_branch_exec, userdata := (qemu_plugin_tb_get_insn tb i).vaddr }
        : insn_cb) ∈ insn_cbs (block_trans_handler cls tb) i ∧
    (i + 1 < tb.insns.length →
      ({ cb := .branch_skipped, userdata := 0 } : insn_cb)
        ∈ insn_cbs (block_trans_handler cls tb) (i + 1) ∧
      (insn_is_branch cls tb (i + 1) = false →
        insn_cbs (block_trans_handler cls tb) (i + 1)
          = [{ cb := .branch_skipped, userdata := 0 }]) ∧
      (insn_is_branch cls tb (i + 1) = true →
        insn_cbs (block_trans_handler cls tb) (i + 1)
          = [{ cb := .branch_skipped, userdata := 0 },
             { cb := .indirect_branch_exec,
               userdata := (qemu_plugin_tb_get_insn tb (i + 1)).vaddr }] ∧
        consecutive_warning ∈ (block_trans_handler cls tb).cout)) := by
  have hi0 : i ≠ 0 := by omega
  refine ⟨?_, ?_⟩
  · rw [insn_cbs_block_trans_handler cls tb i hn]
    simp [planned_cbs, hi0, hb]
  · intro hn1
    rw [insn_cbs_block_trans_handler cls tb (i + 1) hn1]
    refine ⟨by simp [planned_cbs, hb], ?_, ?_⟩
    · intro hc
      simp [planned_cbs, hb, hc]
    · intro hc
      refine ⟨by simp [planned_cbs, hb, hc], ?_⟩
      exact (cout_block_trans_handler cls tb consecutive_warning).mpr ⟨rfl, i, hi, hn1, hb, hc⟩

/-- C8 (as the code has it) on the x86-64 block `nop; call rax; call rcx`:
index 1 carries `indirect_branch_exec 0x1001`, index 2 carries `branch_skipped`
and then `indirect_branch_exec 0x1003`, and the warning is written. -/
theorem planner_interior_branch_witness :
    ({ cb := .indirect_branch_exec, userdata := 0x1001 } : insn_cb)
      ∈ insn_cbs (block_trans_handler (is_indirect_branch reject_all .x86_64)
          ⟨0x1000, [⟨0x1000, [0x90]⟩, ⟨0x1001, [0xff, 0xd0]⟩, ⟨0x1003, [0xff, 0xd1]⟩]⟩) 1 ∧
    insn_cbs (block_trans_handler (is_indirect_branch reject_all .x86_64)
        ⟨0x1000, [⟨0x1000, [0x90]⟩, ⟨0x1001, [0xff, 0xd0]⟩, ⟨0x1003, [0xff, 0xd1]⟩]⟩) 2
      = [{ cb := .branch_skipped, userdata := 0 },
         { cb := .indirect_branch_exec, userdata := 0x1003 }] ∧
    consecutive_warning ∈ (block_trans_handler (is_indirect_branch reject_all .x86_64)
        ⟨0x1000, [⟨0x1000, [0x90]⟩, ⟨0x1001, [0xff, 0xd0]⟩, ⟨0x1003, [0xff, 0xd1]⟩]⟩).cout :=
  have h := planner_interior_branch (is_indirect_branch reject_all .x86_64)
    ⟨0x1000, [⟨0x1000, [0x90]⟩, ⟨0x1001, [0xff, 0xd0]⟩, ⟨0x1003, [0xff, 0xd1]⟩]⟩ 1
    (by decide) (by decide) (by decide)
  ⟨h.1, ((h.2 (by decide)).2.2 (by decide)).1, ((h.2 (by decide)).2.2 (by decide)).2⟩

/-! ## Properties of the address resolver -/

theorem guest_vaddr_to_offset_of_contains (env : host_env) (maps_entry : String) (v : Nat)
    (h : (env.sscanf_maps maps_entry).start ≤ (v + env.guest_base) % 2 ^ 64 ∧
      (v + env.guest_base) % 2 ^ 64 ≤ (env.sscanf_maps maps_entry).end_) :
    guest_vaddr_to_offset env maps_entry v = some
      { offset := (((v + env.guest_base) % 2 ^ 64 - (env.sscanf_maps maps_entry).start)
          + (env.sscanf_maps maps_entry).file_load_offset) % 2 ^ 64,
        image_name_pos := (env.sscanf_maps maps_entry).name_pos } := by
  simp only [guest_vaddr_to_offset]
  rw [if_pos h]

theorem guest_vaddr_to_offset_of_not_contains (env : host_env) (maps_entry : String) (v : Nat)
    (h : ¬ ((env.sscanf_maps maps_entry).start ≤ (v + env.guest_base) % 2 ^ 64 ∧
      (v + env.guest_base) % 2 ^ 64 ≤ (env.sscanf_maps maps_entry).end_)) :
    guest_vaddr_to_offset env maps_entry v = none := by
  simp only [guest_vaddr_to_offset]
  rw [if_neg h]

/-- C9: `guest_vaddr_to_offset` returns a result exactly when the parsed range
contains the host address `h = (v + guest_base) mod 2^64`, both ends included,
and the offset is then `((h - start) + file_load_offset) mod 2^64`; for the
entry `0x1000-0x2000` at file offset `0x500` and guest base 0, `0x1050`
resolves to `0x550`, `0x2000` resolves, and `0x3000` does not. -/
theorem guest_vaddr_to_offset_iff (env : host_env) (maps_entry : String) (v : Nat) :
    ((guest_vaddr_to_offset env maps_entry v).isSome = true ↔
      (env.sscanf_maps maps_entry).start ≤ (v + env.guest_base) % 2 ^ 64 ∧
      (v + env.guest_base) % 2 ^ 64 ≤ (env.sscanf_maps maps_entry).end_) ∧
    ((env.sscanf_maps maps_entry).start ≤ (v + env.guest_base) % 2 ^ 64 ∧
      (v + env.guest_base) % 2 ^ 64 ≤ (env.sscanf_maps maps_entry).end_ →
      guest_vaddr_to_offset env maps_entry v = some
        { offset := (((v + env.guest_base) % 2 ^ 64 - (env.sscanf_maps maps_entry).start)
            + (env.sscanf_maps maps_entry).file_load_offset) % 2 ^ 64,
          image_name_pos := (env.sscanf_maps maps_entry).name_pos }) ∧
    (∀ (line : String) (pos : Nat),
      guest_vaddr_to_offset ⟨0, fun _ => ⟨0x1000, 0x2000, 0x500, pos⟩, [line], 0, 0⟩ line 0x1050
        = some { offset := 0x550, image_name_pos := pos } ∧
      guest_vaddr_to_offset ⟨0, fun _ => ⟨0x1000, 0x2000, 0x500, pos⟩, [line], 0, 0⟩ line 0x2000
        = some { offset := 0x1500, image_name_pos := pos } ∧
      guest_vaddr_to_offset ⟨0, fun _ => ⟨0x1000, 0x2000, 0x500, pos⟩, [line], 0, 0⟩ line 0x3000
        = none) := by
  refine ⟨?_, guest_vaddr_to_offset_of_contains env maps_entry v, ?_⟩
  · by_cases h : (env.sscanf_maps maps_entry).start ≤ (v + env.guest_base) % 2 ^ 64 ∧
        (v + env.guest_base) % 2 ^ 64 ≤ (env.sscanf_maps maps_entry).end_
    · rw [guest_vaddr_to_offset_of_contains env maps_entry v h]
      exact ⟨fun _ => h, fun _ => rfl⟩
    · rw [guest_vaddr_to_offset_of_not_contains env maps_entry v h]
      exact ⟨fun hc => absurd hc (by decide), fun hc => absurd hc h⟩
  · intro line pos
    refine ⟨?_, ?_, ?_⟩ <;> simp [guest_vaddr_to_offset]

/-- C9 on the line `00001000-00002000 r-xp 00000500 08:01 42 /bin/app` with
guest base `0x10`: the guest address `0x1040` is the host address `0x1050` and
resolves to the file offset `0x550`. -/
theorem guest_vaddr_to_offset_iff_witness :
    guest_vaddr_to_offset ⟨0x10, fun _ => ⟨0x1000, 0x2000, 0x500, 41⟩, [], 0, 0⟩
        "00001000-00002000 r-xp 00000500 08:01 42 /bin/app" 0x1040
      = some { offset := 0x550, image_name_pos := 41 } :=
  (guest_vaddr_to_offset_iff ⟨0x10, fun _ => ⟨0x1000, 0x2000, 0x500, 41⟩, [], 0, 0⟩
    "00001000-00002000 r-xp 00000500 08:01 42 /bin/app" 0x1040).2.1 (by decide)

theorem guest_vaddr_to_offset_eq_none_iff (env : host_env) (line : String) (v : Nat) :
    guest_vaddr_to_offset env line v = none ↔ ¬ line_contains env line v := by
  by_cases h : line_contains env line v
  · rw [guest_vaddr_to_offset_of_contains env line v h]
    simp [h]
  · rw [guest_vaddr_to_offset_of_not_contains env line v h]
    simp [h]

/-- The loop, started in any state, treats each side as `side_resolve` does. -/
theorem mark_loop_sides (env : host_env) (c d : Nat) (lines : List String) (l : mark_locals) :
    ((mark_loop env c d lines l).callsite, (mark_loop env c d lines l).callsite_image)
      = side_outcome l.callsite l.callsite_image (side_resolve env c lines) ∧
    ((mark_loop env c d lines l).dst, (mark_loop env c d lines l).dst_image)
      = side_outcome l.dst l.dst_image (side_resolve env d lines) := by
  induction lines generalizing l with
  | nil =>
    obtain ⟨lc, ld, lci, ldi⟩ := l
    cases lc <;> cases ld <;> simp [mark_loop, side_resolve, side_outcome]
  | cons line rest ih =>
    obtain ⟨lc, ld, lci, ldi⟩ := l
    unfold mark_loop
    simp only []
    split
    · rename_i hbreak
      cases lc <;> cases ld <;>
        cases hc : guest_vaddr_to_offset env line c <;>
        cases hd : guest_vaddr_to_offset env line d <;>
        simp_all [mark_loop_body, side_resolve, side_outcome]
    · rw [(ih _).1, (ih _).2]
      cases lc <;> cases ld <;>
        cases hc : guest_vaddr_to_offset env line c <;>
        cases hd : guest_vaddr_to_offset env line d <;>
        simp [mark_loop_body, side_resolve, side_outcome, hc, hd]

theorem side_resolve_eq_none_iff (env : host_env) (v : Nat) (lines : List String) :
    side_resolve env v lines = none ↔ ∀ line ∈ lines, ¬ line_contains env line v := by
  induction lines with
  | nil => simp [side_resolve]
  | cons line rest ih =>
    unfold side_resolve
    cases h : guest_vaddr_to_offset env line v with
    | none =>
      have hn := (guest_vaddr_to_offset_eq_none_iff env line v).mp h
      simp [ih, hn]
    | some o =>
      have hn : line_contains env line v := by
        by_contra hc
        rw [(guest_vaddr_to_offset_eq_none_iff env line v).mpr hc] at h
        exact Option.noConfusion h
      simp [hn]

theorem side_resolve_first (env : host_env) (v : Nat) (pre : List String) (line : String)
    (post : List String) (hpre : ∀ l ∈ pre, ¬ line_contains env l v)
    (hline : line_contains env line v) :
    side_resolve env v (pre ++ line :: post) = some
      ({ offset := (((v + env.guest_base) % 2 ^ 64 - (env.sscanf_maps line).start)
            + (env.sscanf_maps line).file_load_offset) % 2 ^ 64,
         image_name_pos := (env.sscanf_maps line).name_pos },
       image_name_at line (env.sscanf_maps line).name_pos) := by
  induction pre with
  | nil =>
    simp only [List.nil_append, side_resolve]
    rw [guest_vaddr_to_offset_of_contains env line v hline]
  | cons p pre ih =>
    have hp : ¬ line_contains env p v := hpre p (List.mem_cons_self _ _)
    simp only [List.cons_append, side_resolve]
    rw [guest_vaddr_to_offset_of_not_contains env p v hp]
    exact ih (fun l hl => hpre l (List.mem_cons_of_mem _ hl))

theorem mark_resolve_sides (env : host_env) (c d : Nat) :
    ((mark_resolve env c d).callsite, (mark_resolve env c d).callsite_image)
      = side_outcome none "" (side_resolve env c env.maps) ∧
    ((mark_resolve env c d).dst, (mark_resolve env c d).dst_image)
      = side_outcome none "" (side_resolve env d env.maps) :=
  mark_loop_sides env c d env.maps _

/-- C10: `mark_indirect_branch` resolves each side against the first line, in
map order, that contains its address: the offset and the image name (the text
of that line from the parsed name position on) come from that line whatever
lines follow it, a side stays unresolved exactly when no line contains its
address, and neither side depends on the address of the other. -/
theorem mark_indirect_branch_first_match (env : host_env) (c d : Nat) :
    (∀ (pre : List String) (line : String) (post : List String),
      env.maps = pre ++ line :: post → (∀ l ∈ pre, ¬ line_contains env l c) →
      line_contains env line c →
      (mark_resolve env c d).callsite = some
        { offset := (((c + env.guest_base) % 2 ^ 64 - (env.sscanf_maps line).start)
            + (env.sscanf_maps line).file_load_offset) % 2 ^ 64,
          image_name_pos := (env.sscanf_maps line).name_pos } ∧
      (mark_resolve env c d).callsite_image
        = image_name_at line (env.sscanf_maps line).name_pos) ∧
    (∀ (pre : List String) (line : String) (post : List String),
      env.maps = pre ++ line :: post → (∀ l ∈ pre, ¬ line_contains env l d) →
      line_contains env line d →
      (mark_resolve env c d).dst = some
        { offset := (((d + env.guest_base) % 2 ^ 64 - (env.sscanf_maps line).start)
            + (env.sscanf_maps line).file_load_offset) % 2 ^ 64,
          image_name_pos := (env.sscanf_maps line).name_pos } ∧
      (mark_resolve env c d).dst_image
        = image_name_at line (env.sscanf_maps line).name_pos) ∧
    ((mark_resolve env c d).callsite = none ↔ ∀ l ∈ env.maps, ¬ line_contains env l c) ∧
    ((mark_resolve env c d).dst = none ↔ ∀ l ∈ env.maps, ¬ line_contains env l d) ∧
    (∀ d2, (mark_resolve env c d2).callsite = (mark_resolve env c d).callsite ∧
      (mark_resolve env c d2).callsite_image = (mark_resolve env c d).callsite_image) ∧
    (∀ c2, (mark_resolve env c2 d).dst = (mark_resolve env c d).dst ∧
      (mark_resolve env c2 d).dst_image = (mark_resolve env c d).dst_image) := by
  have hc := (mark_resolve_sides env c d).1
  have hd := (mark_resolve_sides env c d).2
  refine ⟨?_, ?_, ?_, ?_, ?_, ?_⟩
  · intro pre line post hmaps hpre hline
    rw [hmaps, side_resolve_first env c pre line post hpre hline] at hc
    simp only [side_outcome, Prod.mk.injEq] at hc
    exact hc
  · intro pre line post hmaps hpre hline
    rw [hmaps, side_resolve_first env d pre line post hpre hline] at hd
    simp only [side_outcome, Prod.mk.injEq] at hd
    exact hd
  · rw [← side_resolve_eq_none_iff]
    cases hs : side_resolve env c env.maps with
    | none =>
      rw [hs] at hc
      simp only [side_outcome, Prod.mk.injEq] at hc
      simp [hc.1]
    | some r =>
      rw [hs] at hc
      simp only [side_outcome, Prod.mk.injEq] at hc
      simp [hc.1]
  · rw [← side_resolve_eq_none_iff]
    cases hs : side_resolve env d env.maps with
    | none =>
      rw [hs] at hd
      simp only [side_outcome, Prod.mk.injEq] at hd
      simp [hd.1]
    | some r =>
      rw [hs] at hd
      simp only [side_outcome, Prod.mk.injEq] at hd
      simp [hd.1]
  · intro d2
    have h2 := (mark_resolve_sides env c d2).1
    rw [← hc, Prod.mk.injEq] at h2
    exact h2
  · intro c2
    have h2 := (mark_resolve_sides env c2 d).2
    rw [← hd, Prod.mk.injEq] at h2
    exact h2

/-- C10 on two overlapping lines: `0x1900` lies in both ranges and resolves in
the first one, with its offset and its image name. -/
theorem mark_indirect_branch_first_match_witness :
    (mark_resolve
      ⟨0, fun line =>
          if line = "00001000-00002000 r-xp 00000000 08:01 42 /bin/a" then
            ⟨0x1000, 0x2000, 0, 41⟩
          else ⟨0x1800, 0x3000, 0x100, 41⟩,
        ["00001000-00002000 r-xp 00000000 08:01 42 /bin/a",
         "00001800-00003000 r-xp 00000100 08:01 43 /lib/b"], 0, 0⟩
      0x1900 0x2800).callsite = some { offset := 0x900, image_name_pos := 41 } ∧
    (mark_resolve
      ⟨0, fun line =>
          if line = "00001000-00002000 r-xp 00000000 08:01 42 /bin/a" then
            ⟨0x1000, 0x2000, 0, 41⟩
          else ⟨0x1800, 0x3000, 0x100, 41⟩,
        ["00001000-00002000 r-xp 00000000 08:01 42 /bin/a",
         "00001800-00003000 r-xp 00000100 08:01 43 /lib/b"], 0, 0⟩
      0x1900 0x2800).callsite_image = "/bin/a" :=
  (mark_indirect_branch_first_match
    ⟨0, fun line =>
        if line = "00001000-00002000 r-xp 00000000 08:01 42 /bin/a" then
          ⟨0x1000, 0x2000, 0, 41⟩
        else ⟨0x1800, 0x3000, 0x100, 41⟩,
      ["00001000-00002000 r-xp 00000000 08:01 42 /bin/a",
       "00001800-00003000 r-xp 00000100 08:01 43 /lib/b"], 0, 0⟩
    0x1900 0x2800).1 [] "00001000-00002000 r-xp 00000000 08:01 42 /bin/a"
    ["00001800-00003000 r-xp 00000100 08:01 43 /lib/b"] rfl
    (fun _ hl => absurd hl (List.not_mem_nil _)) (by decide)

/-! ## Properties of the architecture selection and of single words -/

/-- C15: `arch_supported` returns true exactly for the names `arm`, `x86_64`,
`mips` and `mipsel`, and then makes the named architecture the active one; for
every other name it returns false and leaves the active architecture as it
was. -/
theorem arch_supported_iff (arch_name : String) (arch : arch_t) :
    ((arch_supported arch_name arch).1 = true ↔
      arch_name = "arm" ∨ arch_name = "x86_64" ∨ arch_name = "mips" ∨ arch_name = "mipsel") ∧
    (arch_name = "arm" → arch_supported arch_name arch = (true, .arm)) ∧
    (arch_name = "x86_64" → arch_supported arch_name arch = (true, .x86_64)) ∧
    (arch_name = "mips" → arch_supported arch_name arch = (true, .mips)) ∧
    (arch_name = "mipsel" → arch_supported arch_name arch = (true, .mipsel)) ∧
    ((arch_supported arch_name arch).1 = false → (arch_supported arch_name arch).2 = arch) := by
  unfold arch_supported
  refine ⟨?_, ?_, ?_, ?_, ?_, ?_⟩
  · by_cases h1 : arch_name = "arm"
    · simp [h1]
    · by_cases h2 : arch_name = "x86_64"
      · simp [h2]
      · by_cases h3 : arch_name = "mips"
        · simp [h3]
        · by_cases h4 : arch_name = "mipsel" <;> simp [h1, h2, h3, h4]
  · intro h
    subst h
    rfl
  · intro h
    subst h
    rfl
  · intro h
    subst h
    rfl
  · intro h
    subst h
    rfl
  · by_cases h1 : arch_name = "arm"
    · simp [h1]
    · by_cases h2 : arch_name = "x86_64"
      · simp [h2]
      · by_cases h3 : arch_name = "mips"
        · simp [h3]
        · by_cases h4 : arch_name = "mipsel" <;> simp [h1, h2, h3, h4]

/-- C15 at concrete names: `mipsel` is accepted and selected from ARM, while
`aarch64` and `MIPS` are refused and leave x86-64 selected. -/
theorem arch_supported_iff_witness :
    arch_supported "mipsel" .arm = (true, .mipsel) ∧
    (arch_supported "aarch64" .x86_64).2 = .x86_64 ∧
    ¬ (arch_supported "MIPS" .x86_64).1 = true :=
  ⟨(arch_supported_iff "mipsel" .arm).2.2.2.2.1 rfl,
   (arch_supported_iff "aarch64" .x86_64).2.2.2.2.2 (by decide),
   fun h => absurd ((arch_supported_iff "MIPS" .x86_64).1.1 h) (by decide)⟩

/-- C16 as stated fails: the window `FF FF FF FF` is not accepted on ARM when
the fallback rejects it, so it is not accepted whatever the fallback says. -/
theorem arm_all_ones_counterexample :
    ¬ (∀ fallback : List Nat → Nat → Bool,
        is_indirect_branch fallback .arm [0xff, 0xff, 0xff, 0xff] 4 = true) := by
  intro h
  exact absurd (h reject_all) (by decide)

/-- C16 as the code has it: on ARM the window `FF FF FF FF` (word `0xFFFFFFFF`)
fails the `blx` test, its constant bits not being those of `0x012fff30`, and
gets the fallback's verdict; the window `3F FF 2F F1` (word `0xF12FFF3F`, the
constant bits with every variable bit set) passes it whatever the fallback
says. -/
theorem arm_all_ones_gets_fallback (fallback : List Nat → Nat → Bool) :
    le_word [0xff, 0xff, 0xff, 0xff] = 0xFFFFFFFF ∧
    le_word [0xff, 0xff, 0xff, 0xff] ||| 0xf000000f ≠ 0x012fff30 ||| 0xf000000f ∧
    is_indirect_branch fallback .arm [0xff, 0xff, 0xff, 0xff] 4
      = fallback [0xff, 0xff, 0xff, 0xff] 4 ∧
    le_word [0x3f, 0xff, 0x2f, 0xf1] = 0xF12FFF3F ∧
    is_indirect_branch fallback .arm [0x3f, 0xff, 0x2f, 0xf1] 4 = true := by
  refine ⟨by decide, by decide, ?_, by decide, ?_⟩
  · rw [is_indirect_branch_eq]
    have h : arch_rule .arm [0xff, 0xff, 0xff, 0xff] 4 = false := by decide
    simp [h]
  · rw [is_indirect_branch_eq]
    have h : arch_rule .arm [0x3f, 0xff, 0x2f, 0xf1] 4 = true := by decide
    simp [h]

theorem word_of_le_bytes (w : Nat) :
    (w % 256) ||| ((w >>> 8) % 256) <<< 8 ||| ((w >>> 16) % 256) <<< 16 |||
      ((w >>> 24) % 256) <<< 24 = w % 2 ^ 32 := by
  have e : (256 : Nat) = 2 ^ 8 := by norm_num
  rw [e]
  apply Nat.eq_of_testBit_eq
  intro i
  simp only [Nat.testBit_or, Nat.testBit_shiftLeft, Nat.testBit_mod_two_pow, Nat.testBit_shiftRight]
  by_cases h8 : i < 8
  · have h1 : ¬ i ≥ 8 := by omega
    have h2 : ¬ i ≥ 16 := by omega
    have h3 : ¬ i ≥ 24 := by omega
    have h4 : i < 32 := by omega
    simp [h8, h1, h2, h3, h4]
  · by_cases h16 : i < 16
    · have h1 : i ≥ 8 := by omega
      have h2 : ¬ i ≥ 16 := by omega
      have h3 : ¬ i ≥ 24 := by omega
      have h4 : i < 32 := by omega
      have h5 : i - 8 < 8 := by omega
      have h6 : 8 + (i - 8) = i := by omega
      simp [h8, h1, h2, h3, h4, h5, h6]
    · by_cases h24 : i < 24
      · have h1 : i ≥ 8 := by omega
        have h2 : i ≥ 16 := by omega
        have h3 : ¬ i ≥ 24 := by omega
        have h4 : i < 32 := by omega
        have h5 : ¬ i - 8 < 8 := by omega
        have h6 : 16 + (i - 16) = i := by omega
        have h7 : i - 16 < 8 := by omega
        simp [h8, h1, h2, h3, h4, h5, h6, h7]
      · by_cases h32 : i < 32
        · have h1 : i ≥ 8 := by omega
          have h2 : i ≥ 16 := by omega
          have h3 : i ≥ 24 := by omega
          have h5 : ¬ i - 8 < 8 := by omega
          have h6 : 24 + (i - 24) = i := by omega
          have h7 : ¬ i - 16 < 8 := by omega
          have h9 : i - 24 < 8 := by omega
          simp [h8, h1, h2, h3, h32, h5, h6, h7, h9]
        · have h1 : i ≥ 8 := by omega
          have h2 : i ≥ 16 := by omega
          have h3 : i ≥ 24 := by omega
          have h5 : ¬ i - 8 < 8 := by omega
          have h7 : ¬ i - 16 < 8 := by omega
          have h9 : ¬ i - 24 < 8 := by omega
          simp [h8, h1, h2, h3, h32, h5, h7, h9]

theorem le_word_le_bytes (w : Nat) (hw : w < 2 ^ 32) : le_word (le_bytes w) = w := by
  have h := word_of_le_bytes w
  rw [Nat.mod_eq_of_lt hw] at h
  simpa [le_word, le_bytes, insn_byte] using h

/-- On ARM with the rejecting fallback a 32-bit word is accepted exactly when
its constant bits are those of `blx`. -/
theorem arm_accepts_word_iff (w : Nat) (hw : w < 2 ^ 32) :
    is_indirect_branch reject_all .arm (le_bytes w) 4 = true ↔
      w &&& 0x0ffffff0 = 0x012fff30 := by
  rw [is_indirect_branch_eq, ← blx_mask_iff w hw]
  simp [arch_rule, reject_all, le_word_le_bytes w hw]

theorem blx_constant_bit (k : Nat) (hk : k < 32) (hm : Nat.testBit 0xf000000f k = false) :
    Nat.testBit 0x0ffffff0 k = true := by
  revert hm
  interval_cases k <;> decide

/-- C17: with the rejecting fallback, flipping one bit outside the mask
`0xf000000f` of a word accepted on ARM gives a rejected word (clearing bit
`0x01` of the top byte of `0xe12fff30` is one case), and flipping any one bit
of an accepted MIPS or MIPS little-endian constant gives a rejected word. -/
theorem single_bit_flip_rejected :
    (∀ w k : Nat, w < 2 ^ 32 → k < 32 →
      is_indirect_branch reject_all .arm (le_bytes w) 4 = true →
      Nat.testBit 0xf000000f k = false →
      is_indirect_branch reject_all .arm (le_bytes (w ^^^ 2 ^ k)) 4 = false) ∧
    (is_indirect_branch reject_all .arm (le_bytes 0xe12fff30) 4 = true ∧
      0xe12fff30 ^^^ 2 ^ 24 = 0xe02fff30 ∧
      is_indirect_branch reject_all .arm (le_bytes 0xe02fff30) 4 = false) ∧
    (is_indirect_branch reject_all .mips (be_bytes 0x08002003) 4 = true ∧
      is_indirect_branch reject_all .mips (be_bytes 0x09f82003) 4 = true ∧
      is_indirect_branch reject_all .mipsel (be_bytes 0x03020008) 4 = true ∧
      is_indirect_branch reject_all .mipsel (be_bytes 0x0320f809) 4 = true) ∧
    (∀ k : Nat, k < 32 →
      is_indirect_branch reject_all .mips (be_bytes (0x08002003 ^^^ 2 ^ k)) 4 = false ∧
      is_indirect_branch reject_all .mips (be_bytes (0x09f82003 ^^^ 2 ^ k)) 4 = false ∧
      is_indirect_branch reject_all .mipsel (be_bytes (0x03020008 ^^^ 2 ^ k)) 4 = false ∧
      is_indirect_branch reject_all .mipsel (be_bytes (0x0320f809 ^^^ 2 ^ k)) 4 = false) := by
  refine ⟨?_, by decide, by decide, by decide⟩
  intro w k hw hk hacc hm
  have hk2 : 2 ^ k < 2 ^ 32 := Nat.pow_lt_pow_right (by decide) hk
  have hw2 : w ^^^ 2 ^ k < 2 ^ 32 := Nat.xor_lt_two_pow hw hk2
  have h := (arm_accepts_word_iff w hw).mp hacc
  cases hflip : is_indirect_branch reject_all .arm (le_bytes (w ^^^ 2 ^ k)) 4 with
  | false => rfl
  | true =>
    exfalso
    have h2 := (arm_accepts_word_iff (w ^^^ 2 ^ k) hw2).mp hflip
    have hb := blx_constant_bit k hk hm
    have e1 := congrArg (fun x => Nat.testBit x k) h
    have e2 := congrArg (fun x => Nat.testBit x k) h2
    simp only [Nat.testBit_and, Nat.testBit_xor, Nat.testBit_two_pow_self, hb] at e1 e2
    rw [← e1] at e2
    cases hwk : Nat.testBit w k <;> simp [hwk] at e2

/-- C17 at the word `0xe12fff30` and bit 24: the word is accepted on ARM, bit
24 lies outside the mask, and the word with that bit cleared is rejected. -/
theorem single_bit_flip_rejected_witness :
    is_indirect_branch reject_all .arm (le_bytes (0xe12fff30 ^^^ 2 ^ 24)) 4 = false ∧
    is_indirect_branch reject_all .mips (be_bytes (0x08002003 ^^^ 2 ^ 0)) 4 = false :=
  ⟨single_bit_flip_rejected.1 0xe12fff30 24 (by decide) (by decide) (by decide) (by decide),
   (single_bit_flip_rejected.2.2.2 0 (by decide)).1⟩

/-! ## Properties of a planned block that executes -/

theorem exec_insns_succ (env : host_env) (plan : trans_state) (k : Nat) (s : plugin_state) :
    exec_insns env plan (k + 1) s = exec_insn env plan k (exec_insns env plan k s) := by
  simp [exec_insns, List.range_succ, List.foldl_append]

theorem exec_insns_zero (env : host_env) (plan : trans_state) (s : plugin_state) :
    exec_insns env plan 0 s = s := rfl

theorem exec_insn_planned (env : host_env) (cls : List Nat → Nat → Bool) (tb : qemu_plugin_tb)
    (j : Nat) (hj : j < tb.insns.length) (s : plugin_state) :
    exec_insn env (block_trans_handler cls tb) j s = run_cbs env (planned_cbs cls tb j) s := by
  unfold exec_insn
  rw [insn_cbs_block_trans_handler cls tb j hj]

/-- Instruction 0 of a planned block: the pending slot afterwards holds the
block start exactly when the instruction is a branch, and the output is the
old one, extended by one record when a branch was pending. -/
theorem exec_insn_zero (env : host_env) (cls : List Nat → Nat → Bool) (tb : qemu_plugin_tb)
    (hn : 0 < tb.insns.length) (s : plugin_state) :
    exec_insn env (block_trans_handler cls tb) 0 s
      = { branch_addr := if insn_is_branch cls tb 0 = true then some tb.vaddr else none,
          io := match s.branch_addr with
            | some c => mark_indirect_branch env c tb.vaddr s.io
            | none => s.io } := by
  rw [exec_insn_planned env cls tb 0 hn]
  obtain ⟨ba, io⟩ := s
  by_cases hb : insn_is_branch cls tb 0 = true <;> cases ba <;>
    simp [planned_cbs, hb, run_cbs, run_cb, branch_taken, indirect_branch_at_start,
      indirect_branch_exec]

/-- An interior instruction of a planned block: the pending slot afterwards
holds the instruction's address when it is a branch, is empty when only its
predecessor is one, and is untouched otherwise; nothing is written. -/
theorem exec_insn_interior (env : host_env) (cls : List Nat → Nat → Bool) (tb : qemu_plugin_tb)
    (j : Nat) (hj0 : 0 < j) (hj : j < tb.insns.length) (s : plugin_state) :
    exec_insn env (block_trans_handler cls tb) j s
      = { branch_addr :=
            if insn_is_branch cls tb j = true then some (qemu_plugin_tb_get_insn tb j).vaddr
            else if insn_is_branch cls tb (j - 1) = true then none
            else s.branch_addr,
          io := s.io } := by
  rw [exec_insn_planned env cls tb j hj]
  have hne : j ≠ 0 := by omega
  obtain ⟨ba, io⟩ := s
  by_cases hb : insn_is_branch cls tb j = true <;>
    by_cases hp : insn_is_branch cls tb (j - 1) = true <;>
    simp [planned_cbs, hne, hb, hp, run_cbs, run_cb, branch_skipped, indirect_branch_exec]

/-- The state after instruction `j` of a planned block has executed. -/
theorem exec_insns_after (env : host_env) (cls : List Nat → Nat → Bool) (tb : qemu_plugin_tb)
    (s : plugin_state) (j : Nat) (hj : j < tb.insns.length) :
    exec_insns env (block_trans_handler cls tb) (j + 1) s
      = { branch_addr :=
            if insn_is_branch cls tb j = true then some (callsite_payload tb j) else none,
          io := (exec_insn env (block_trans_handler cls tb) 0 s).io } := by
  induction j with
  | zero =>
    rw [exec_insns_succ, exec_insns_zero, exec_insn_zero env cls tb hj]
    simp [callsite_payload]
  | succ j ih =>
    rw [exec_insns_succ, ih (by omega), exec_insn_interior env cls tb (j + 1) (by omega) hj]
    by_cases hb : insn_is_branch cls tb (j + 1) = true <;>
      by_cases hp : insn_is_branch cls tb j = true <;>
      simp [callsite_payload, hb, hp]

/-- C11: a one-instruction block whose instruction is classified as an indirect
branch, planned and executed with no branch pending, leaves the block's start
address `a` pending and writes nothing; the first instruction of any next
planned block, at start address `d`, then makes the one call
`mark_indirect_branch a d`, whether or not it is itself a branch, so exactly
the edge `(a, d)` is emitted. -/
theorem single_branch_block_then_next_block (env : host_env) (cls : List Nat → Nat → Bool)
    (tb next_tb : qemu_plugin_tb) (io : io_state)
    (h1 : tb.insns.length = 1) (hb : insn_is_branch cls tb 0 = true)
    (hnext : 0 < next_tb.insns.length) :
    exec_insns env (block_trans_handler cls tb) tb.insns.length { branch_addr := none, io := io }
      = { branch_addr := some tb.vaddr, io := io } ∧
    (exec_insn env (block_trans_handler cls next_tb) 0
        (exec_insns env (block_trans_handler cls tb) tb.insns.length
          { branch_addr := none, io := io })).io
      = mark_indirect_branch env tb.vaddr next_tb.vaddr io ∧
    (exec_insn env (block_trans_handler cls next_tb) 0
        (exec_insns env (block_trans_handler cls tb) tb.insns.length
          { branch_addr := none, io := io })).io
      = record_edges env [{ callsite := tb.vaddr, destination := next_tb.vaddr }] io ∧
    (exec_insn env (block_trans_handler cls next_tb) 0
        (exec_insns env (block_trans_handler cls tb) tb.insns.length
          { branch_addr := none, io := io })).io.outfile.length
      = io.outfile.length + 1 := by
  have hfirst : exec_insns env (block_trans_handler cls tb) tb.insns.length
      { branch_addr := none, io := io } = { branch_addr := some tb.vaddr, io := io } := by
    rw [h1, exec_insns_after env cls tb _ 0 (by omega), exec_insn_zero env cls tb (by omega)]
    simp [hb, callsite_payload]
  rw [hfirst, exec_insn_zero env cls next_tb hnext]
  exact ⟨rfl, rfl, rfl, mark_indirect_branch_outfile_length env tb.vaddr next_tb.vaddr io⟩

/-- C11 on x86-64: the block `call rcx` at `0x400000` followed by the first
instruction of a block at `0x401000` emits the edge `(0x400000, 0x401000)`. -/
theorem single_branch_block_then_next_block_witness :
    (exec_insn ⟨0, fun _ => ⟨0, 0, 0, 0⟩, [], 0, 0⟩
        (block_trans_handler (is_indirect_branch reject_all .x86_64)
          ⟨0x401000, [⟨0x401000, [0x90]⟩]⟩) 0
        (exec_insns ⟨0, fun _ => ⟨0, 0, 0, 0⟩, [], 0, 0⟩
          (block_trans_handler (is_indirect_branch reject_all .x86_64)
            ⟨0x400000, [⟨0x400000, [0xff, 0xd1]⟩]⟩) 1
          { branch_addr := none, io := ⟨[], []⟩ })).io
      = record_edges ⟨0, fun _ => ⟨0, 0, 0, 0⟩, [], 0, 0⟩
          [{ callsite := 0x400000, destination := 0x401000 }] ⟨[], []⟩ :=
  (single_branch_block_then_next_block ⟨0, fun _ => ⟨0, 0, 0, 0⟩, [], 0, 0⟩
    (is_indirect_branch reject_all .x86_64) ⟨0x400000, [⟨0x400000, [0xff, 0xd1]⟩]⟩
    ⟨0x401000, [⟨0x401000, [0x90]⟩]⟩ ⟨[], []⟩ rfl (by decide) (by decide)).2.2.1

/-- C12: a planned block of any length and any classification, executed
straight through with no branch pending, writes nothing: no edge is emitted.
For a block of two instructions neither of which is a branch the slot is
empty afterwards as well. -/
theorem block_from_idle_emits_no_edge (env : host_env) (cls : List Nat → Nat → Bool)
    (tb : qemu_plugin_tb) (io : io_state) :
    (exec_insns env (block_trans_handler cls tb) tb.insns.length
      { branch_addr := none, io := io }).io = io ∧
    (∀ k, k ≤ tb.insns.length →
      (exec_insns env (block_trans_handler cls tb) k { branch_addr := none, io := io }).io
        = io) ∧
    (tb.insns.length = 2 → insn_is_branch cls tb 0 = false → insn_is_branch cls tb 1 = false →
      exec_insns env (block_trans_handler cls tb) tb.insns.length
        { branch_addr := none, io := io } = { branch_addr := none, io := io }) := by
  have hk : ∀ k, k ≤ tb.insns.length →
      (exec_insns env (block_trans_handler cls tb) k { branch_addr := none, io := io }).io
        = io := by
    intro k hk
    cases k with
    | zero => rfl
    | succ j =>
      rw [exec_insns_after env cls tb _ j (by omega), exec_insn_zero env cls tb (by omega)]
  refine ⟨hk _ (Nat.le_refl _), hk, ?_⟩
  intro h2 h0 h1
  rw [h2, exec_insns_after env cls tb _ 1 (by omega), exec_insn_zero env cls tb (by omega)]
  simp [h1]

/-- C12 on the x86-64 block `nop; nop`: executed with no branch pending it
leaves the state as it was. -/
theorem block_from_idle_emits_no_edge_witness :
    exec_insns ⟨0, fun _ => ⟨0, 0, 0, 0⟩, [], 0, 0⟩
        (block_trans_handler (is_indirect_branch reject_all .x86_64)
          ⟨0x1000, [⟨0x1000, [0x90]⟩, ⟨0x1001, [0x90]⟩]⟩) 2
        { branch_addr := none, io := ⟨[], []⟩ }
      = { branch_addr := none, io := ⟨[], []⟩ } :=
  (block_from_idle_emits_no_edge ⟨0, fun _ => ⟨0, 0, 0, 0⟩, [], 0, 0⟩
    (is_indirect_branch reject_all .x86_64) ⟨0x1000, [⟨0x1000, [0x90]⟩, ⟨0x1001, [0x90]⟩]⟩
    ⟨[], []⟩).2.2 rfl (by decide) (by decide)

/-- C13: on x86-64 with the rejecting fallback, the block made of `FF D1` at
`0x400000` and a second instruction at `0x400002` that is not classified as a
branch gets the combined callback on the first instruction and
`branch_skipped` on the second; executed with no branch pending, `0x400000` is
pending after the first instruction, nothing is pending after the second, and
nothing is written. -/
theorem x86_64_two_insn_block (env : host_env) (second : List Nat) (io : io_state)
    (hsecond : is_indirect_branch reject_all .x86_64 second second.length = false) :
    insn_cbs (block_trans_handler (is_indirect_branch reject_all .x86_64)
        ⟨0x400000, [⟨0x400000, [0xFF, 0xD1]⟩, ⟨0x400002, second⟩]⟩) 0
      = [{ cb := .indirect_branch_at_start, userdata := 0x400000 }] ∧
    insn_cbs (block_trans_handler (is_indirect_branch reject_all .x86_64)
        ⟨0x400000, [⟨0x400000, [0xFF, 0xD1]⟩, ⟨0x400002, second⟩]⟩) 1
      = [{ cb := .branch_skipped, userdata := 0 }] ∧
    exec_insns env (block_trans_handler (is_indirect_branch reject_all .x86_64)
        ⟨0x400000, [⟨0x400000, [0xFF, 0xD1]⟩, ⟨0x400002, second⟩]⟩) 1
        { branch_addr := none, io := io }
      = { branch_addr := some 0x400000, io := io } ∧
    exec_insns env (block_trans_handler (is_indirect_branch reject_all .x86_64)
        ⟨0x400000, [⟨0x400000, [0xFF, 0xD1]⟩, ⟨0x400002, second⟩]⟩) 2
        { branch_addr := none, io := io }
      = { branch_addr := none, io := io } := by
  have hb0 : insn_is_branch (is_indirect_branch reject_all .x86_64)
      ⟨0x400000, [⟨0x400000, [0xFF, 0xD1]⟩, ⟨0x400002, second⟩]⟩ 0 = true := by
    show is_indirect_branch reject_all .x86_64 [0xFF, 0xD1] 2 = true
    decide
  have hb1 : insn_is_branch (is_indirect_branch reject_all .x86_64)
      ⟨0x400000, [⟨0x400000, [0xFF, 0xD1]⟩, ⟨0x400002, second⟩]⟩ 1 = false := hsecond
  refine ⟨?_, ?_, ?_, ?_⟩
  · rw [insn_cbs_block_trans_handler _ _ 0 (by simp)]
    simp [planned_cbs, hb0]
  · rw [insn_cbs_block_trans_handler _ _ 1 (by simp)]
    simp [planned_cbs, hb0, hb1]
  · rw [exec_insns_after env _ _ _ 0 (by simp), exec_insn_zero env _ _ (by simp)]
    simp [hb0, callsite_payload]
  · rw [exec_insns_after env _ _ _ 1 (by simp), exec_insn_zero env _ _ (by simp)]
    simp [hb1]

/-- C13 with `nop` as the second instruction. -/
theorem x86_64_two_insn_block_witness :
    exec_insns ⟨0, fun _ => ⟨0, 0, 0, 0⟩, [], 0, 0⟩
        (block_trans_handler (is_indirect_branch reject_all .x86_64)
          ⟨0x400000, [⟨0x400000, [0xFF, 0xD1]⟩, ⟨0x400002, [0x90]⟩]⟩) 1
        { branch_addr := none, io := ⟨[], []⟩ }
      = { branch_addr := some 0x400000, io := ⟨[], []⟩ } ∧
    exec_insns ⟨0, fun _ => ⟨0, 0, 0, 0⟩, [], 0, 0⟩
        (block_trans_handler (is_indirect_branch reject_all .x86_64)
          ⟨0x400000, [⟨0x400000, [0xFF, 0xD1]⟩, ⟨0x400002, [0x90]⟩]⟩) 2
        { branch_addr := none, io := ⟨[], []⟩ }
      = { branch_addr := none, io := ⟨[], []⟩ } :=
  (x86_64_two_insn_block ⟨0, fun _ => ⟨0, 0, 0, 0⟩, [], 0, 0⟩ [0x90] ⟨[], []⟩ (by decide)).2.2

/-- C19: in a planned block executed straight through from any state, after
instruction `j` a branch is pending exactly when instruction `j` is classified
as an indirect branch, and it is then that instruction's address (the block
start for `j = 0`); the output after instruction `j` is the output after
instruction 0, which is the old output plus at most one record; and an interior
branch directly followed by a branch leaves the address of the second one
pending. -/
theorem pending_after_each_insn (env : host_env) (cls : List Nat → Nat → Bool)
    (tb : qemu_plugin_tb) (s : plugin_state) (j : Nat) (hj : j < tb.insns.length) :
    ((exec_insns env (block_trans_handler cls tb) (j + 1) s).branch_addr.isSome = true ↔
      insn_is_branch cls tb j = true) ∧
    (insn_is_branch cls tb j = true →
      (exec_insns env (block_trans_handler cls tb) (j + 1) s).branch_addr
        = some (if j = 0 then tb.vaddr else (qemu_plugin_tb_get_insn tb j).vaddr)) ∧
    (exec_insns env (block_trans_handler cls tb) (j + 1) s).io
      = (exec_insns env (block_trans_handler cls tb) 1 s).io ∧
    (s.branch_addr = none →
      (exec_insns env (block_trans_handler cls tb) (j + 1) s).io = s.io) ∧
    (∀ c, s.branch_addr = some c →
      (exec_insns env (block_trans_handler cls tb) (j + 1) s).io
        = mark_indirect_branch env c tb.vaddr s.io) ∧
    (0 < j → j + 1 < tb.insns.length → insn_is_branch cls tb j = true →
      insn_is_branch cls tb (j + 1) = true →
      (exec_insns env (block_trans_handler cls tb) (j + 2) s).branch_addr
        = some (qemu_plugin_tb_get_insn tb (j + 1)).vaddr) := by
  have h0 : 0 < tb.insns.length := by omega
  rw [exec_insns_after env cls tb s j hj, exec_insns_after env cls tb s 0 h0,
    exec_insn_zero env cls tb h0]
  refine ⟨?_, ?_, rfl, ?_, ?_, ?_⟩
  · by_cases hb : insn_is_branch cls tb j = true <;> simp [hb]
  · intro hb
    simp [hb, callsite_payload]
  · intro hs
    simp [hs]
  · intro c hs
    simp [hs]
  · intro hj0 hj1 hb hb1
    rw [exec_insns_after env cls tb s (j + 1) hj1]
    simp [hb1, callsite_payload]

/-- C19 on the x86-64 block `nop; call rax; call rcx` entered with `0x500`
pending: after index 1 the address `0x1001` is pending, after index 2 the
address `0x1003`, and the output after index 2 is the one record written by
index 0. -/
theorem pending_after_each_insn_witness :
    (exec_insns ⟨0, fun _ => ⟨0, 0, 0, 0⟩, [], 0, 0⟩
        (block_trans_handler (is_indirect_branch reject_all .x86_64)
          ⟨0x1000, [⟨0x1000, [0x90]⟩, ⟨0x1001, [0xff, 0xd0]⟩, ⟨0x1003, [0xff, 0xd1]⟩]⟩) 2
        { branch_addr := some 0x500, io := ⟨[], []⟩ }).branch_addr = some 0x1001 ∧
    (exec_insns ⟨0, fun _ => ⟨0, 0, 0, 0⟩, [], 0, 0⟩
        (block_trans_handler (is_indirect_branch reject_all .x86_64)
          ⟨0x1000, [⟨0x1000, [0x90]⟩, ⟨0x1001, [0xff, 0xd0]⟩, ⟨0x1003, [0xff, 0xd1]⟩]⟩) 3
        { branch_addr := some 0x500, io := ⟨[], []⟩ }).branch_addr = some 0x1003 ∧
    (exec_insns ⟨0, fun _ => ⟨0, 0, 0, 0⟩, [], 0, 0⟩
        (block_trans_handler (is_indirect_branch reject_all .x86_64)
          ⟨0x1000, [⟨0x1000, [0x90]⟩, ⟨0x1001, [0xff, 0xd0]⟩, ⟨0x1003, [0xff, 0xd1]⟩]⟩) 2
        { branch_addr := some 0x500, io := ⟨[], []⟩ }).io
      = mark_indirect_branch ⟨0, fun _ => ⟨0, 0, 0, 0⟩, [], 0, 0⟩ 0x500 0x1000 ⟨[], []⟩ :=
  have h := pending_after_each_insn ⟨0, fun _ => ⟨0, 0, 0, 0⟩, [], 0, 0⟩
    (is_indirect_branch reject_all .x86_64)
    ⟨0x1000, [⟨0x1000, [0x90]⟩, ⟨0x1001, [0xff, 0xd0]⟩, ⟨0x1003, [0xff, 0xd1]⟩]⟩
    { branch_addr := some 0x500, io := ⟨[], []⟩ } 1 (by decide)
  ⟨h.2.1 (by decide), h.2.2.2.2.2 (by decide) (by decide) (by decide) (by decide),
   h.2.2.2.2.1 0x500 rfl⟩

/-! ## Properties of the record written for an edge -/

theorem hex_digit_value_digitChar : ∀ m, m < 16 → hex_digit_value (Nat.digitChar m) = m := by
  decide

theorem digitChar_mem_hex_digits : ∀ m, m < 16 → Nat.digitChar m ∈ hex_digits := by
  decide

theorem digitChar_ne_zero : ∀ m, m < 16 → 0 < m → Nat.digitChar m ≠ '0' := by
  decide

theorem toDigitsCore_value (fuel : Nat) : ∀ (n : Nat) (ds : List Char), n < fuel →
    (Nat.toDigitsCore 16 fuel n ds).foldl (fun acc c => 16 * acc + hex_digit_value c) 0
      = ds.foldl (fun acc c => 16 * acc + hex_digit_value c) n := by
  induction fuel with
  | zero => intro n ds h; omega
  | succ fuel ih =>
    intro n ds h
    have hm : n % 16 < 16 := Nat.mod_lt _ (by decide)
    simp only [Nat.toDigitsCore]
    by_cases h0 : n / 16 = 0
    · have hn : n % 16 = n := by omega
      have hv := hex_digit_value_digitChar _ hm
      rw [hn] at hv
      simp [h0, hn, hv]
    · have hlt : n / 16 < fuel := by omega
      simp only [h0, if_false]
      rw [ih (n / 16) _ hlt]
      simp only [List.foldl_cons, hex_digit_value_digitChar _ hm]
      congr 1
      omega

theorem toDigitsCore_mem (fuel : Nat) : ∀ (n : Nat) (ds : List Char) (c : Char),
    c ∈ Nat.toDigitsCore 16 fuel n ds → c ∈ hex_digits ∨ c ∈ ds := by
  induction fuel with
  | zero => intro n ds c h; exact Or.inr h
  | succ fuel ih =>
    intro n ds c h
    have hm : n % 16 < 16 := Nat.mod_lt _ (by decide)
    simp only [Nat.toDigitsCore] at h
    by_cases h0 : n / 16 = 0
    · simp only [h0, if_true, List.mem_cons] at h
      rcases h with h | h
      · exact Or.inl (h ▸ digitChar_mem_hex_digits _ hm)
      · exact Or.inr h
    · simp only [h0, if_false] at h
      rcases ih _ _ _ h with h | h
      · exact Or.inl h
      · rcases List.mem_cons.mp h with h | h
        · exact Or.inl (h ▸ digitChar_mem_hex_digits _ hm)
        · exact Or.inr h

theorem toDigitsCore_head (fuel : Nat) : ∀ (n : Nat) (ds : List Char), n < fuel → 0 < n →
    (Nat.toDigitsCore 16 fuel n ds).head? ≠ some '0' := by
  induction fuel with
  | zero => intro n ds h; omega
  | succ fuel ih =>
    intro n ds h hpos
    have hm : n % 16 < 16 := Nat.mod_lt _ (by decide)
    simp only [Nat.toDigitsCore]
    by_cases h0 : n / 16 = 0
    · have hp : 0 < n % 16 := by omega
      simp only [h0, if_true, List.head?_cons]
      intro hc
      exact digitChar_ne_zero _ hm hp (Option.some.inj hc)
    · simp only [h0, if_false]
      exact ih _ _ (by omega) (by omega)

/-- The text `hex` writes denotes the number written. -/
theorem hex_value_hex (n : Nat) : hex_value (hex n) = n := by
  unfold hex_value hex Nat.toDigits
  rw [toDigitsCore_value (n + 1) n [] (by omega)]
  rfl

/-- The text `hex` writes is made of lowercase hexadecimal digits. -/
theorem hex_mem_hex_digits (n : Nat) (c : Char) (h : c ∈ (hex n).data) : c ∈ hex_digits := by
  unfold hex Nat.toDigits at h
  rcases toDigitsCore_mem (n + 1) n [] c h with h | h
  · exact h
  · exact absurd h (List.not_mem_nil _)

/-- The text `hex` writes for a number other than 0 does not start with `0`. -/
theorem hex_no_padding (n : Nat) (h : 0 < n) : (hex n).data.head? ≠ some '0' := by
  unfold hex Nat.toDigits
  exact toDigitsCore_head (n + 1) n [] (by omega) h

/-- The text the six `<<` lines of `mark_indirect_branch` write is the record
of the specification. -/
theorem record_line_eq (a b c d : Nat) (i j : String) :
    "0x" ++ hex a ++ "," ++ "0x" ++ hex b ++ "," ++ "0x" ++ hex c ++ "," ++ "0x" ++ hex d ++ ","
      ++ i ++ "," ++ j = record_line a b c d i j := by
  simp only [record_line, String.intercalate, String.intercalate.go, String.append_assoc]

/-- Both streams after `mark_indirect_branch`: one more record on `outfile`,
and on `cout` one error line for each side that was not found. -/
theorem mark_indirect_branch_eq (env : host_env) (c d : Nat) (io : io_state) :
    mark_indirect_branch env c d io
      = { outfile := io.outfile ++
            [record_line
              (match (mark_resolve env c d).callsite with
                | some o => o.offset
                | none => env.unset_callsite_offset)
              (match (mark_resolve env c d).dst with
                | some o => o.offset
                | none => env.unset_dst_offset)
              c d (mark_resolve env c d).callsite_image (mark_resolve env c d).dst_image],
          cout := io.cout ++
            (if (mark_resolve env c d).callsite = none then
              ["ERROR: Unable to find callsite address in /proc/self/maps"] else []) ++
            (if (mark_resolve env c d).dst = none then
              ["ERROR: Unable to find destination address in /proc/self/maps"] else []) } := by
  unfold mark_indirect_branch
  simp only [record_line_eq]
  generalize mark_resolve env c d = l
  obtain ⟨lc, ld, lci, ldi⟩ := l
  cases lc <;> cases ld <;> simp

theorem mark_resolve_callsite_unresolved (env : host_env) (c d : Nat)
    (h : ∀ l ∈ env.maps, ¬ line_contains env l c) :
    (mark_resolve env c d).callsite = none ∧ (mark_resolve env c d).callsite_image = "" := by
  have hs := (mark_resolve_sides env c d).1
  rw [(side_resolve_eq_none_iff env c env.maps).mpr h] at hs
  simp only [side_outcome, Prod.mk.injEq] at hs
  exact hs

theorem mark_resolve_dst_unresolved (env : host_env) (c d : Nat)
    (h : ∀ l ∈ env.maps, ¬ line_contains env l d) :
    (mark_resolve env c d).dst = none ∧ (mark_resolve env c d).dst_image = "" := by
  have hs := (mark_resolve_sides env c d).2
  rw [(side_resolve_eq_none_iff env d env.maps).mpr h] at hs
  simp only [side_outcome, Prod.mk.injEq] at hs
  exact hs

/-- C14: when both sides of an edge resolve, `mark_indirect_branch` appends
exactly one line and writes no diagnostic; the line is the six fields callsite
offset, destination offset, callsite address, destination address, callsite
image, destination image, joined by commas, the names verbatim and each number
as `0x` followed by its hexadecimal digits: lowercase digits that denote the
number, with no leading zero. -/
theorem resolved_edge_record (env : host_env) (c d : Nat) (io : io_state)
    (co dd : image_offset) (hc : (mark_resolve env c d).callsite = some co)
    (hd : (mark_resolve env c d).dst = some dd) :
    mark_indirect_branch env c d io
      = { outfile := io.outfile ++
            [String.intercalate ","
              ["0x" ++ hex co.offset, "0x" ++ hex dd.offset, "0x" ++ hex c, "0x" ++ hex d,
                (mark_resolve env c d).callsite_image, (mark_resolve env c d).dst_image]],
          cout := io.cout } ∧
    (∀ v : Nat, hex_value (hex v) = v ∧ (∀ ch ∈ (hex v).data, ch ∈ hex_digits) ∧
      (0 < v → (hex v).data.head? ≠ some '0')) ∧
    hex 0 = "0" ∧ hex 0x550 = "550" ∧ hex 0xABCDEF = "abcdef" := by
  refine ⟨?_, ?_, by decide, by decide, by decide⟩
  · rw [mark_indirect_branch_eq, hc, hd]
    simp [record_line]
  · intro v
    exact ⟨hex_value_hex v, hex_mem_hex_digits v, hex_no_padding v⟩

/-- C14 on one mapping line that holds both addresses: the record written for
the edge `(0x1050, 0x1900)`. -/
theorem resolved_edge_record_witness :
    mark_indirect_branch
        ⟨0, fun _ => ⟨0x1000, 0x2000, 0x500, 41⟩,
          ["00001000-00002000 r-xp 00000500 08:01 42 /bin/app"], 0, 0⟩
        0x1050 0x1900 ⟨[], []⟩
      = { outfile := ["0x550,0xe00,0x1050,0x1900,/bin/app,/bin/app"], cout := [] } :=
  (resolved_edge_record
    ⟨0, fun _ => ⟨0x1000, 0x2000, 0x500, 41⟩,
      ["00001000-00002000 r-xp 00000500 08:01 42 /bin/app"], 0, 0⟩
    0x1050 0x1900 ⟨[], []⟩ ⟨0x550, 41⟩ ⟨0xe00, 41⟩ (by decide) (by decide)).1

theorem mark_resolve_callsite_eq_none_iff (env : host_env) (c d : Nat) :
    (mark_resolve env c d).callsite = none ↔ ∀ l ∈ env.maps, ¬ line_contains env l c := by
  constructor
  · intro h
    rw [← side_resolve_eq_none_iff]
    have hs := (mark_resolve_sides env c d).1
    cases hr : side_resolve env c env.maps with
    | none => rfl
    | some r =>
      rw [hr] at hs
      simp only [side_outcome, Prod.mk.injEq] at hs
      rw [h] at hs
      exact absurd hs.1 (by simp)
  · intro h
    exact (mark_resolve_callsite_unresolved env c d h).1

theorem mark_resolve_dst_eq_none_iff (env : host_env) (c d : Nat) :
    (mark_resolve env c d).dst = none ↔ ∀ l ∈ env.maps, ¬ line_contains env l d := by
  constructor
  · intro h
    rw [← side_resolve_eq_none_iff]
    have hs := (mark_resolve_sides env c d).2
    cases hr : side_resolve env d env.maps with
    | none => rfl
    | some r =>
      rw [hr] at hs
      simp only [side_outcome, Prod.mk.injEq] at hs
      rw [h] at hs
      exact absurd hs.1 (by simp)
  · intro h
    exact (mark_resolve_dst_unresolved env c d h).1

/-- C18: `mark_indirect_branch` never fails and always appends exactly one
record: the comma-join of six fields whose third and fourth are `0x` and the
hexadecimal digits of the raw callsite and destination addresses.  On `cout` it
writes the callsite error line exactly when no mapping line contains the
callsite, then the destination error line exactly when no mapping line contains
the destination, and nothing else.  The image field of a side that is in no
line is empty and its offset field is whatever the empty `optional` yields.
The digits `hex` writes are lowercase, denote the number written and have no
leading zero. -/
theorem unresolved_edge_record (env : host_env) (c d : Nat) (io : io_state) :
    mark_indirect_branch env c d io
      = { outfile := io.outfile ++
            [String.intercalate ","
              ["0x" ++ hex (match (mark_resolve env c d).callsite with
                  | some o => o.offset
                  | none => env.unset_callsite_offset),
                "0x" ++ hex (match (mark_resolve env c d).dst with
                  | some o => o.offset
                  | none => env.unset_dst_offset),
                "0x" ++ hex c, "0x" ++ hex d,
                (mark_resolve env c d).callsite_image, (mark_resolve env c d).dst_image]],
          cout := io.cout ++
            (if ∀ l ∈ env.maps, ¬ line_contains env l c then
              ["ERROR: Unable to find callsite address in /proc/self/maps"] else []) ++
            (if ∀ l ∈ env.maps, ¬ line_contains env l d then
              ["ERROR: Unable to find destination address in /proc/self/maps"] else []) } ∧
    (mark_indirect_branch env c d io).outfile.length = io.outfile.length + 1 ∧
    ((∀ l ∈ env.maps, ¬ line_contains env l c) →
      ∀ dd, (mark_resolve env c d).dst = some dd →
      mark_indirect_branch env c d io
        = { outfile := io.outfile ++
              [String.intercalate ","
                ["0x" ++ hex env.unset_callsite_offset, "0x" ++ hex dd.offset,
                  "0x" ++ hex c, "0x" ++ hex d, "", (mark_resolve env c d).dst_image]],
            cout := io.cout ++
              ["ERROR: Unable to find callsite address in /proc/self/maps"] }) ∧
    ((∀ l ∈ env.maps, ¬ line_contains env l d) →
      ∀ co, (mark_resolve env c d).callsite = some co →
      mark_indirect_branch env c d io
        = { outfile := io.outfile ++
              [String.intercalate ","
                ["0x" ++ hex co.offset, "0x" ++ hex env.unset_dst_offset,
                  "0x" ++ hex c, "0x" ++ hex d, (mark_resolve env c d).callsite_image, ""]],
            cout := io.cout ++
              ["ERROR: Unable to find destination address in /proc/self/maps"] }) ∧
    ((∀ l ∈ env.maps, ¬ line_contains env l c) → (∀ l ∈ env.maps, ¬ line_contains env l d) →
      mark_indirect_branch env c d io
        = { outfile := io.outfile ++
              [String.intercalate ","
                ["0x" ++ hex env.unset_callsite_offset, "0x" ++ hex env.unset_dst_offset,
                  "0x" ++ hex c, "0x" ++ hex d, "", ""]],
            cout := io.cout ++
              ["ERROR: Unable to find callsite address in /proc/self/maps",
               "ERROR: Unable to find destination address in /proc/self/maps"] }) ∧
    (∀ v : Nat, hex_value (hex v) = v ∧ (∀ ch ∈ (hex v).data, ch ∈ hex_digits) ∧
      (0 < v → (hex v).data.head? ≠ some '0')) ∧
    hex 0 = "0" ∧ hex 0x1050 = "1050" ∧ hex 0xABCDEF = "abcdef" ∧
    mark_indirect_branch
        ⟨0, fun _ => ⟨0x1000, 0x2000, 0x500, 41⟩,
          ["00001000-00002000 r-xp 00000500 08:01 42 /bin/app"], 7, 9⟩
        0x3000 0x1050 ⟨[], []⟩
      = { outfile := ["0x7,0x550,0x3000,0x1050,,/bin/app"],
          cout := ["ERROR: Unable to find callsite address in /proc/self/maps"] } := by
  have hgen : mark_indirect_branch env c d io
      = { outfile := io.outfile ++
            [String.intercalate ","
              ["0x" ++ hex (match (mark_resolve env c d).callsite with
                  | some o => o.offset
                  | none => env.unset_callsite_offset),
                "0x" ++ hex (match (mark_resolve env c d).dst with
                  | some o => o.offset
                  | none => env.unset_dst_offset),
                "0x" ++ hex c, "0x" ++ hex d,
                (mark_resolve env c d).callsite_image, (mark_resolve env c d).dst_image]],
          cout := io.cout ++
            (if ∀ l ∈ env.maps, ¬ line_contains env l c then
              ["ERROR: Unable to find callsite address in /proc/self/maps"] else []) ++
            (if ∀ l ∈ env.maps, ¬ line_contains env l d then
              ["ERROR: Unable to find destination address in /proc/self/maps"] else []) } := by
    simp only [← mark_resolve_callsite_eq_none_iff env c d,
      ← mark_resolve_dst_eq_none_iff env c d]
    unfold mark_indirect_branch
    simp only [record_line_eq]
    generalize mark_resolve env c d = l
    obtain ⟨lc, ld, lci, ldi⟩ := l
    cases lc <;> cases ld <;> simp [record_line]
  refine ⟨hgen, ?_, ?_, ?_, ?_, ?_, by decide, by decide, by decide, by decide⟩
  · rw [hgen]
    simp
  · intro hc dd hd
    have hdn : ¬ ∀ l ∈ env.maps, ¬ line_contains env l d := by
      intro hall
      rw [(mark_resolve_dst_eq_none_iff env c d).mpr hall] at hd
      exact Option.noConfusion hd
    obtain ⟨h1, h2⟩ := mark_resolve_callsite_unresolved env c d hc
    rw [hgen, if_pos hc, if_neg hdn, h1, h2, hd]
    simp [record_line]
  · intro hd co hc
    have hcn : ¬ ∀ l ∈ env.maps, ¬ line_contains env l c := by
      intro hall
      rw [(mark_resolve_callsite_eq_none_iff env c d).mpr hall] at hc
      exact Option.noConfusion hc
    obtain ⟨h1, h2⟩ := mark_resolve_dst_unresolved env c d hd
    rw [hgen, if_neg hcn, if_pos hd, h1, h2, hc]
    simp [record_line]
  · intro hc hd
    obtain ⟨h1, h2⟩ := mark_resolve_callsite_unresolved env c d hc
    obtain ⟨h3, h4⟩ := mark_resolve_dst_unresolved env c d hd
    rw [hgen, if_pos hc, if_pos hd, h1, h2, h3, h4]
    simp [record_line]
  · intro v
    exact ⟨hex_value_hex v, hex_mem_hex_digits v, hex_no_padding v⟩

/-- C18 on a map whose one line holds the callsite `0x1050` but not the
destination `0x3000`, the empty destination slot reading 9: only the
destination error line is written, and the record carries the resolved
callsite, the raw addresses and an empty destination image. -/
theorem unresolved_edge_record_witness :
    mark_indirect_branch
        ⟨0, fun _ => ⟨0x1000, 0x2000, 0x500, 41⟩,
          ["00001000-00002000 r-xp 00000500 08:01 42 /bin/app"], 7, 9⟩
        0x1050 0x3000 ⟨[], []⟩
      = { outfile := ["0x550,0x9,0x1050,0x3000,/bin/app,"],
          cout := ["ERROR: Unable to find destination address in /proc/self/maps"] } :=
  (unresolved_edge_record
    ⟨0, fun _ => ⟨0x1000, 0x2000, 0x500, 41⟩,
      ["00001000-00002000 r-xp 00000500 08:01 42 /bin/app"], 7, 9⟩
    0x1050 0x3000 ⟨[], []⟩).2.2.2.1 (by decide) ⟨0x550, 41⟩ (by decide)

/-! ## Properties of arbitrary callback sequences -/

theorem record_edges_append (env : host_env) (a b : List Edge) (io : io_state) :
    record_edges env (a ++ b) io = record_edges env b (record_edges env a io) := by
  simp [record_edges, List.foldl_append]

theorem record_edges_outfile_length (env : host_env) (es : List Edge) (io : io_state) :
    (record_edges env es io).outfile.length = io.outfile.length + es.length := by
  induction es generalizing io with
  | nil => rfl
  | cons e rest ih =>
    show (record_edges env rest (mark_indirect_branch env e.callsite e.destination io)).outfile.length
      = io.outfile.length + (rest.length + 1)
    rw [ih, mark_indirect_branch_outfile_length]
    omega

/-- One callback of the code is one step of the tracker. -/
theorem run_cb_simulates (env : host_env) (r : insn_cb) (s : plugin_state) :
    tracker_of (run_cb env r s) = (tracker_step r (tracker_of s)).1 ∧
    (run_cb env r s).io = record_edges env (tracker_step r (tracker_of s)).2 s.io := by
  obtain ⟨cb, u⟩ := r
  obtain ⟨ba, io⟩ := s
  cases cb <;> cases ba <;> exact ⟨rfl, rfl⟩

/-- A sequence of callbacks of the code is a run of the tracker. -/
theorem run_cbs_simulates (env : host_env) (cbs : List insn_cb) (s : plugin_state) :
    tracker_of (run_cbs env cbs s) = (tracker_run cbs (tracker_of s)).1 ∧
    (run_cbs env cbs s).io = record_edges env (tracker_run cbs (tracker_of s)).2 s.io := by
  induction cbs generalizing s with
  | nil => exact ⟨rfl, rfl⟩
  | cons r rest ih =>
    have h1 := run_cb_simulates env r s
    have h2 := ih (run_cb env r s)
    show tracker_of (run_cbs env rest (run_cb env r s)) = _ ∧
      (run_cbs env rest (run_cb env r s)).io = _
    simp only [tracker_run]
    rw [record_edges_append, ← h1.1, ← h1.2]
    exact h2

theorem tracker_step_state (r : insn_cb) (t : TrackerState) :
    (tracker_step r t).1
      = if sets_pending r then .AwaitingDestination r.userdata else .Idle := by
  obtain ⟨cb, u⟩ := r
  cases cb <;> cases t <;> rfl

theorem tracker_step_edges (r : insn_cb) (rest : List insn_cb) (t : TrackerState) :
    (tracker_step r t).2 = first_edge t (r :: rest) := by
  obtain ⟨cb, u⟩ := r
  cases cb <;> cases t <;> rfl

/-- The edges of a tracker run: the one the starting state may contribute,
then the adjacent pairs. -/
theorem tracker_run_edges (cbs : List insn_cb) (t : TrackerState) :
    (tracker_run cbs t).2 = first_edge t cbs ++ adjacent_edges cbs := by
  induction cbs generalizing t with
  | nil => cases t <;> rfl
  | cons r rest ih =>
    simp only [tracker_run]
    rw [ih, tracker_step_state, tracker_step_edges r rest t]
    cases rest with
    | nil =>
      by_cases hs : sets_pending r = true <;> simp [hs, first_edge, adjacent_edges]
    | cons y rest2 =>
      by_cases hs : sets_pending r = true <;>
        by_cases hr : resolves_pending y = true <;>
        simp [hs, hr, first_edge, adjacent_edges]

theorem adjacent_edges_cons_cons (x y : insn_cb) (rest : List insn_cb) :
    adjacent_edges (x :: y :: rest)
      = (if sets_pending x && resolves_pending y then
            [{ callsite := x.userdata, destination := y.userdata }]
          else []) ++ adjacent_edges (y :: rest) := rfl

theorem adjacent_edges_split (pre : List insn_cb) (x y : insn_cb) (post : List insn_cb) :
    adjacent_edges (pre ++ x :: y :: post)
      = adjacent_edges (pre ++ [x]) ++
        (if sets_pending x && resolves_pending y then
            [{ callsite := x.userdata, destination := y.userdata }]
          else []) ++ adjacent_edges (y :: post) := by
  induction pre with
  | nil => simp [adjacent_edges]
  | cons p pre ih =>
    cases pre with
    | nil => simp [adjacent_edges]
    | cons q pre2 =>
      have ih2 : adjacent_edges (q :: (pre2 ++ x :: y :: post))
          = adjacent_edges (q :: (pre2 ++ [x])) ++
            (if sets_pending x && resolves_pending y then
                [{ callsite := x.userdata, destination := y.userdata }]
              else []) ++ adjacent_edges (y :: post) := ih
      show adjacent_edges (p :: q :: (pre2 ++ x :: y :: post))
        = adjacent_edges (p :: q :: (pre2 ++ [x])) ++ _ ++ _
      rw [adjacent_edges_cons_cons, adjacent_edges_cons_cons, ih2]
      simp only [List.append_assoc]

theorem adjacent_edges_length_le (cbs : List insn_cb) :
    (adjacent_edges cbs).length ≤ (cbs.filter sets_pending).length := by
  induction cbs with
  | nil => simp [adjacent_edges]
  | cons x rest ih =>
    cases rest with
    | nil => simp [adjacent_edges]
    | cons y rest2 =>
      rw [adjacent_edges_cons_cons, List.length_append]
      by_cases hs : sets_pending x = true
      · rw [List.filter_cons_of_pos hs, List.length_cons]
        have hle : (if (sets_pending x && resolves_pending y) = true then
            [({ callsite := x.userdata, destination := y.userdata } : Edge)] else []).length
            ≤ 1 := by
          split <;> simp
        omega
      · rw [List.filter_cons_of_neg hs]
        have hc : ¬ (sets_pending x && resolves_pending y) = true := by simp [hs]
        rw [if_neg hc, List.length_nil]
        omega

theorem mem_adjacent_edges (cbs : List insn_cb) (e : Edge) (h : e ∈ adjacent_edges cbs) :
    ∃ pre x y post, cbs = pre ++ x :: y :: post ∧ sets_pending x = true ∧
      resolves_pending y = true ∧ e = { callsite := x.userdata, destination := y.userdata } := by
  induction cbs with
  | nil => exact absurd h (List.not_mem_nil _)
  | cons a rest ih =>
    cases rest with
    | nil => exact absurd h (List.not_mem_nil _)
    | cons b rest2 =>
      simp only [adjacent_edges, List.mem_append] at h
      rcases h with h | h
      · by_cases hc : (sets_pending a && resolves_pending b) = true
        · rw [if_pos hc] at h
          have hc2 := Bool.and_eq_true_iff.mp hc
          exact ⟨[], a, b, rest2, rfl, hc2.1, hc2.2, List.mem_singleton.mp h⟩
        · rw [if_neg hc] at h
          exact absurd h (List.not_mem_nil _)
      · obtain ⟨pre, x, y, post, heq, hx, hy, he⟩ := ih h
        exact ⟨a :: pre, x, y, post, by rw [heq]; rfl, hx, hy, he⟩

/-- C20: a sequence of callbacks started with no branch pending makes exactly
the `mark_indirect_branch` calls of its adjacent pairs "a callback that sets
the pending branch, directly followed by one that resolves it", in order, one
record each.  So every edge has as callsite the payload of the set-pending or
combined callback fired just before the edge, with no callback in between;
there are at most as many edges as set-pending and combined callbacks; and a
callback directly followed by a set-pending callback forms no edge with
anything after it, the run from that set-pending callback on being independent
of what was pending. -/
theorem edges_follow_latest_set_pending (env : host_env) (cbs : List insn_cb) (io : io_state) :
    (run_cbs env cbs { branch_addr := none, io := io }).io
      = record_edges env (adjacent_edges cbs) io ∧
    (run_cbs env cbs { branch_addr := none, io := io }).io.outfile.length
      = io.outfile.length + (adjacent_edges cbs).length ∧
    (∀ e ∈ adjacent_edges cbs, ∃ pre x y post, cbs = pre ++ x :: y :: post ∧
      (x.cb = .indirect_branch_exec ∨ x.cb = .indirect_branch_at_start) ∧
      (y.cb = .branch_taken ∨ y.cb = .indirect_branch_at_start) ∧
      e = { callsite := x.userdata, destination := y.userdata }) ∧
    (adjacent_edges cbs).length ≤ (cbs.filter sets_pending).length ∧
    (∀ pre x b post, cbs = pre ++ x :: { cb := .indirect_branch_exec, userdata := b } :: post →
      adjacent_edges cbs = adjacent_edges (pre ++ [x]) ++
        adjacent_edges ({ cb := .indirect_branch_exec, userdata := b } :: post)) ∧
    (∀ (b : Nat) (post : List insn_cb) (pending other : Option Nat) (io2 : io_state),
      run_cbs env ({ cb := .indirect_branch_exec, userdata := b } :: post)
          { branch_addr := pending, io := io2 }
        = run_cbs env ({ cb := .indirect_branch_exec, userdata := b } :: post)
          { branch_addr := other, io := io2 }) := by
  have hsim := (run_cbs_simulates env cbs { branch_addr := none, io := io }).2
  have hio : (run_cbs env cbs { branch_addr := none, io := io }).io
      = record_edges env (adjacent_edges cbs) io := by
    rw [hsim, tracker_run_edges]
    cases cbs <;> rfl
  refine ⟨hio, ?_, ?_, adjacent_edges_length_le cbs, ?_, ?_⟩
  · rw [hio, record_edges_outfile_length]
  · intro e he
    obtain ⟨pre, x, y, post, heq, hx, hy, hexy⟩ := mem_adjacent_edges cbs e he
    refine ⟨pre, x, y, post, heq, ?_, ?_, hexy⟩
    · obtain ⟨cb, u⟩ := x
      cases cb <;> simp_all [sets_pending]
    · obtain ⟨cb, u⟩ := y
      cases cb <;> simp_all [resolves_pending]
  · intro pre x b post heq
    rw [heq, adjacent_edges_split]
    simp [resolves_pending]
  · intro b post pending other io2
    rfl

/-- C20 on the sequence set-pending `0x10`, set-pending `0x20`, resolve `0x30`:
the overwritten callsite `0x10` is in no edge, the one edge being
`(0x20, 0x30)`. -/
theorem edges_follow_latest_set_pending_witness :
    adjacent_edges [{ cb := .indirect_branch_exec, userdata := 0x10 },
        { cb := .indirect_branch_exec, userdata := 0x20 },
        { cb := .branch_taken, userdata := 0x30 }]
      = [{ callsite := 0x20, destination := 0x30 }] :=
  (edges_follow_latest_set_pending ⟨0, fun _ => ⟨0, 0, 0, 0⟩, [], 0, 0⟩
    [{ cb := .indirect_branch_exec, userdata := 0x10 },
      { cb := .indirect_branch_exec, userdata := 0x20 },
      { cb := .branch_taken, userdata := 0x30 }] ⟨[], []⟩).2.2.2.2.1
    [] { cb := .indirect_branch_exec, userdata := 0x10 } 0x20
    [{ cb := .branch_taken, userdata := 0x30 }] rfl

end IBResolver
